import Mathlib

/-!
# Verification of the Ventifact test-result store (`packages/data-lib/src/tests.ts`)

A shallow embedding of the deduplicating test-run store. The hash function
(`crypto.createHash("shake256", { outputLength: 8 })`) is modelled as an
abstract parameter `H : String → List Nat` producing an 8-byte digest
(hypotheses state the length/byte bounds that the real SHAKE256 digest
always satisfies); similarly the list digest is `HL : List Nat → List Nat`
applied to the concatenation of the sorted member digests, mirroring
`BlueprintID.hash` with incremental `hash.update` calls.

Buffers are modelled as `List Nat` of bytes, timestamps
(`Temporal.Instant`) as `Int` (comparisons on instants are a total order),
database tables as association lists, and each database operation as an
explicit function on a `DBState`, with `Except` for code paths that throw.
-/

/-- Unsigned lexicographic byte order on buffers, as computed by
`Buffer.compare` (used by `BlueprintID.compare`): compare bytewise; on a tie
the shorter buffer sorts first. -/
def byteLe : List Nat → List Nat → Bool
  | [], _ => true
  | _ :: _, [] => false
  | a :: as, b :: bs => if a < b then true else if b < a then false else byteLe as bs

/-- `byteLe` as a relation, for use with `List.insertionSort`. -/
def ByteLeR (a b : List Nat) : Prop := byteLe a b = true

instance : DecidableRel ByteLeR := fun a b => by unfold ByteLeR; infer_instance

/-- Big-endian unsigned value of a byte list (each entry one byte). -/
def beNat : List Nat → Nat
  | [] => 0
  | b :: rest => b * 256 ^ rest.length + beNat rest

/-- `Buffer.prototype.readBigInt64BE`: the 8 bytes read big-endian as a
signed 64-bit integer (two's complement). This is `BlueprintID.toInt64`,
the value stored into the `bigint` database columns. -/
def toInt64 (l : List Nat) : Int :=
  let n := beNat l
  if n < 2 ^ 63 then (n : Int) else (n : Int) - 2 ^ 64

/-- First occurrence of key `k` in an association list: the semantics of a
`Map.get` / unique-key SQL lookup. -/
def lookupKey {α : Type} : List (Int × α) → Int → Option α
  | [], _ => none
  | (k', v) :: rest, k => if k = k' then some v else lookupKey rest k

/-- JS `Map.prototype.set`: if the key is present, overwrite its value in
place (keeping its position); otherwise append a new entry. -/
def mapSet (m : List (Int × Bool)) (k : Int) (v : Bool) : List (Int × Bool) :=
  if m.any (fun p => decide (p.1 = k)) then
    m.map (fun p => if p.1 = k then (k, v) else p)
  else
    m ++ [(k, v)]

/-- Builds the result `Map` of `ResultSpec.decodeIDResults`: iterate `ids`
in order, setting each id to `v id` (the value the decoder computes for
that id). -/
def buildResultMap (ids : List Int) (v : Int → Bool) : List (Int × Bool) :=
  ids.foldl (fun m i => mapSet m i (v i)) []

/-- First-occurrence deduplication, the contents of a JS `Set` built by
repeated insertion (iteration order = first-insertion order). -/
def dedupKeys (l : List Int) : List Int :=
  l.foldl (fun acc i => if i ∈ acc then acc else acc ++ [i]) []

/-- The decoder's id-reading loop (`tests.ts` lines 154-163): starting at
offset 1, read 8-byte chunks via `spec.subarray`; a trailing chunk shorter
than 8 bytes makes the `BlueprintID` constructor throw
`"Expected a 64-bit digest"`. -/
def parseIDs : List Nat → Except String (List Int)
  | [] => .ok []
  | b0 :: b1 :: b2 :: b3 :: b4 :: b5 :: b6 :: b7 :: rest =>
    match parseIDs rest with
    | .ok ids => .ok (toInt64 [b0, b1, b2, b3, b4, b5, b6, b7] :: ids)
    | .error e => .error e
  | _ => .error "Expected a 64-bit digest"

/-- A single test result as ingested (`TestResult` in `tests.ts`). -/
structure TestResult where
  title : String
  passed : Bool
deriving DecidableEq, Repr

/-- `ResultSpec.encodeFromResults`: if every test passed the spec is
absent (`undefined` / SQL NULL); otherwise a variant byte (1 = passes
enumerated, chosen when `passedCount < results.length / 2`; 0 = failures
enumerated) followed by the 8-byte ids of the results matching the chosen
variant, in input order. The source writes into a pre-allocated buffer of
size `1 + 8·k` at offsets 1, 9, ...; with 8-byte digests that equals this
concatenation. -/
def encodeFromResults (H : String → List Nat) (results : List TestResult) :
    Option (List Nat) :=
  let passedCount := results.countP (·.passed)
  if passedCount = results.length then none
  else
    let encodingPassedTests : Bool := decide (2 * passedCount < results.length)
    some ((if encodingPassedTests then 1 else 0) ::
      (results.filter (fun r => r.passed = encodingPassedTests)).flatMap
        (fun r => H r.title))

/-- `ResultSpec.decodeIDResults`: absent spec means every id passed;
otherwise read the variant tag (`spec.readUInt8(0) === 1`, throwing on an
empty buffer), parse the remaining payload as a set of 64-bit ids, and map
each id of `allIDs` to `tag = 1 ? member : ¬member`. -/
def decodeIDResults (spec : Option (List Nat)) (allIDs : List Int) :
    Except String (List (Int × Bool)) :=
  match spec with
  | none => .ok (buildResultMap allIDs (fun _ => true))
  | some [] => .error "Attempt to access memory outside buffer bounds"
  | some (tag :: rest) =>
    match parseIDs rest with
    | .error e => .error e
    | .ok ids =>
      .ok (buildResultMap allIDs
        (fun id => if tag = 1 then ids.contains id else !(ids.contains id)))

/-- `deriveBlueprintIDForTestBlueprint`: the digest of a test title. -/
def deriveBlueprintIDForTestBlueprint (H : String → List Nat) (title : String) :
    List Nat := H title

/-- `deriveBlueprintIDForList`: hash of the concatenation of the member
digests sorted ascending by raw bytes (`[...ids].sort(BlueprintID.compare)`
then incremental `hash.update`). Only the hash input is sorted; the input
list itself is not mutated in the source (the sort acts on a copy). -/
def deriveBlueprintIDForList (HL : List Nat → List Nat) (ids : List (List Nat)) :
    List Nat :=
  HL (List.insertionSort ByteLeR ids).flatten

/-- The CI source enum (`test_runs_source`). -/
inductive Source
  | appveyor
  | circleci
deriving DecidableEq, Repr

/-- A `test_runs` row. -/
structure TestRunRow where
  source : Source
  extId : Int
  blueprintId : Int
  timestamp : Int
  branch : Option String
  commitId : List Nat
  resultSpec : Option (List Nat)
deriving DecidableEq, Repr

/-- A `test_flakes` row (`test_run_source`, `test_run_ext_id`,
`test_blueprint_id`). The table has foreign keys but no primary key or
unique constraint (migration `create.test_flakes`). -/
structure FlakeRow where
  testRunSource : Source
  testRunExtId : Int
  testBlueprintId : Int
deriving DecidableEq, Repr

/-- The four test tables. `testBlueprints` maps id → title;
`testRunBlueprints` maps id → `test_blueprint_ids` array. -/
structure DBState where
  testBlueprints : List (Int × String)
  testRunBlueprints : List (Int × List Int)
  testRuns : List TestRunRow
  testFlakes : List FlakeRow
deriving DecidableEq, Repr

/-- The external identity of a run (`TestRun["id"]`): `buildId` for
AppVeyor, `jobId` for CircleCI, stored uniformly as `ext_id`. -/
structure RunId where
  source : Source
  extId : Int
deriving DecidableEq, Repr

/-- The ingest input (`TestRun` interface in `tests.ts`). -/
structure TestRunInput where
  id : RunId
  results : List TestResult
  timestamp : Int
  branch : Option String
  commitId : List Nat
deriving DecidableEq, Repr

/-- Error kinds relevant to `createTestRun`. `sqlSyntax` models PostgreSQL
rejecting a malformed statement; `externalInput` is the input-validation
error kind described in the design notes (never produced by this code). -/
inductive DBErr
  | sqlSyntax
  | externalInput
deriving DecidableEq, Repr

/-- Outcome of `createTestRun`: whether a transaction was opened (`BEGIN`
issued), the resulting database state, and the error if one occurred
(`DB.transaction` rolls back on error, so on error the state is the
original one). -/
structure CreateResult where
  txOpened : Bool
  err : Option DBErr
  newState : DBState
deriving DecidableEq, Repr

/-- `INSERT ... ON CONFLICT (id) DO NOTHING` of a single row into a
unique-key table: keep the existing row if the key is present. -/
def insertIfAbsent {α : Type} (l : List (Int × α)) (e : Int × α) : List (Int × α) :=
  if (lookupKey l e.1).isSome then l else l ++ [e]

/-- `createTestRun`: derive ids and the result spec, then in one
transaction upsert the test blueprints, upsert the run blueprint, and
insert the run, each with `ON CONFLICT DO NOTHING`. There is no input
validation: `DB.transaction` is entered unconditionally, and for an empty
`results` list the first statement is
`INSERT INTO test_blueprints (id, title) VALUES  ON CONFLICT ...` (an
empty `VALUES` list), which PostgreSQL rejects as a syntax error; the
transaction then rolls back. -/
def createTestRun (H : String → List Nat) (HL : List Nat → List Nat)
    (run : TestRunInput) (st : DBState) : CreateResult :=
  let testBlueprints := run.results.map (fun r => (H r.title, r.title))
  let blueprintIDs := testBlueprints.map (·.1)
  let testRunBlueprintID := deriveBlueprintIDForList HL blueprintIDs
  let resultSpec := encodeFromResults H run.results
  if testBlueprints.isEmpty then
    { txOpened := true, err := some .sqlSyntax, newState := st }
  else
    let bps := testBlueprints.foldl
      (fun acc e => insertIfAbsent acc (toInt64 e.1, e.2)) st.testBlueprints
    let rbId := toInt64 testRunBlueprintID
    let runBps := insertIfAbsent st.testRunBlueprints
      (rbId, blueprintIDs.map toInt64)
    let runs :=
      if st.testRuns.any (fun r =>
          decide (r.source = run.id.source) && decide (r.extId = run.id.extId)) then
        st.testRuns
      else
        st.testRuns ++
          [{ source := run.id.source, extId := run.id.extId,
             blueprintId := rbId, timestamp := run.timestamp,
             branch := run.branch, commitId := run.commitId,
             resultSpec := resultSpec }]
    { txOpened := true, err := none,
      newState := { testBlueprints := bps, testRunBlueprints := runBps,
                    testRuns := runs, testFlakes := st.testFlakes } }

/-- One row of the orphan-candidate query in `deleteTestRunsBefore`. The
`SELECT` list is `num_test_runs, blueprint_id, test_blueprint_ids` — note
that it contains no `id` column. `test_blueprint_ids` is `NULL` when the
`LEFT JOIN` on `test_run_blueprints` finds no row. -/
structure CandidateRow where
  numTestRuns : Nat
  blueprintId : Int
  testBlueprintIds : Option (List Int)
deriving DecidableEq, Repr

/-- The loop `for ({ test_blueprint_ids } of rows) for (id of
test_blueprint_ids) set.add(id)` building the potentially-orphaned test
blueprint id set; iterating a `NULL` array throws a `TypeError`. -/
def collectMembers (rows : List CandidateRow) : Option (List Int) :=
  rows.foldl
    (fun acc row =>
      match acc, row.testBlueprintIds with
      | some s, some ids =>
        some (ids.foldl (fun s i => if i ∈ s then s else s ++ [i]) s)
      | _, _ => none)
    (some [])

/-- `deleteTestRunsBefore`, step by step in source order:

1. the candidate query: group the expired runs joined against *all* runs
   on `blueprint_id`; `COUNT(*)` of such a group is
   `(#expired with that blueprint) * (#runs with that blueprint)`, and the
   blueprint becomes a candidate when that product is `≤ 1`;
2. `DELETE FROM test_flakes USING test_runs WHERE test_runs.timestamp < $1`
   — no join condition ties the flake to the run, so every flake is
   deleted as soon as at least one expired run exists;
3. delete the expired runs, recording the count;
4. if candidates exist: build the potentially-orphaned member set, then
   stream `test_run_blueprints WHERE id <> ALL ($1)`. The parameter is
   `rows.map(({ id }) => id)`, but the candidate query selected no `id`
   column, so every extracted value is `undefined`, serialized by the pg
   driver as SQL `NULL`; `id <> ALL (ARRAY[NULL, ...])` is never TRUE, so
   the stream yields no rows and nothing is removed from the set;
5. delete the test blueprints remaining in the set;
6. `DELETE FROM test_run_blueprints WHERE id = ANY ($1)` with the same
   all-`NULL` parameter — `id = ANY (ARRAY[NULL, ...])` is never TRUE, so
   no test run blueprint is deleted. -/
def deleteTestRunsBefore (cutoff : Int) (st : DBState) :
    Except String (DBState × Nat) :=
  let expired := st.testRuns.filter (fun r => decide (r.timestamp < cutoff))
  let groupKeys := dedupKeys (expired.map (·.blueprintId))
  let candidates := groupKeys.filterMap (fun b =>
    let numTestRuns :=
      (expired.filter (fun r => decide (r.blueprintId = b))).length *
      (st.testRuns.filter (fun r => decide (r.blueprintId = b))).length
    if numTestRuns ≤ 1 then
      some { numTestRuns := numTestRuns, blueprintId := b,
             testBlueprintIds := lookupKey st.testRunBlueprints b }
    else none)
  let testFlakes := if expired.isEmpty then st.testFlakes else []
  let survivingRuns := st.testRuns.filter (fun r => !decide (r.timestamp < cutoff))
  if candidates.isEmpty then
    .ok ({ st with testFlakes := testFlakes, testRuns := survivingRuns },
      expired.length)
  else
    match collectMembers candidates with
    | none => .error "TypeError: test_blueprint_ids is not iterable"
    | some s0 =>
      let idParams : List (Option Int) := candidates.map (fun _ => none)
      let surviving := st.testRunBlueprints.filter (fun tb =>
        idParams.all (fun p => match p with
          | some v => decide (tb.1 ≠ v)
          | none => false))
      let sRem := s0.filter (fun id =>
        surviving.all (fun tb => !(tb.2.contains id)))
      let testBlueprints := st.testBlueprints.filter (fun tb => !(sRem.contains tb.1))
      let testRunBlueprints := st.testRunBlueprints.filter (fun tb =>
        !(idParams.any (fun p => match p with
          | some v => decide (tb.1 = v)
          | none => false)))
      .ok ({ testBlueprints := testBlueprints,
             testRunBlueprints := testRunBlueprints,
             testRuns := survivingRuns, testFlakes := testFlakes }, expired.length)

/-- `LAG(...) OVER (PARTITION BY blueprint_id, commit_id ORDER BY
timestamp ASC)`: the run in the same partition with the greatest timestamp
strictly below `r`'s. Tie-breaking between equal timestamps is unspecified
in SQL (flagged as an open question in the design notes); this model keeps
the earlier-scanned run on a timestamp tie. -/
def prevRun (runs : List TestRunRow) (r : TestRunRow) : Option TestRunRow :=
  runs.foldl
    (fun best q =>
      if q.blueprintId = r.blueprintId ∧ q.commitId = r.commitId ∧
          q.timestamp < r.timestamp then
        match best with
        | none => some q
        | some b => if b.timestamp < q.timestamp then some q else some b
      else best)
    none

/-- The rows of the flaky-rerun query in `markTestFlakesSince`, as
`(previous, current)` pairs: a run with `rerun_num > 1` (a predecessor
exists), `timestamp > cutoff`, and a `result_spec` differing from the
predecessor's (the SQL three-way NULL/inequality test is exactly
disequality of the two optional payloads). -/
def flakyPairs (st : DBState) (cutoff : Int) : List (TestRunRow × TestRunRow) :=
  st.testRuns.filterMap (fun r =>
    match prevRun st.testRuns r with
    | none => none
    | some p =>
      if cutoff < r.timestamp ∧ r.resultSpec ≠ p.resultSpec then some (p, r)
      else none)

/-- One iteration of the per-rerun loop body of `markTestFlakesSince`:
look up the previous result of one map entry (`prevResults.get(id)`
throwing `"Test run blueprint mismatch"` on a miss), and if the outcome
changed emit the flake attributed to the failing side
(`failureInCurrentRun = !result`). -/
def entryFlake (cur prev : TestRunRow) (prevResults : List (Int × Bool))
    (e : Int × Bool) : Except String (List FlakeRow) :=
  match lookupKey prevResults e.1 with
  | none => .error "Test run blueprint mismatch"
  | some prevResult =>
    if prevResult ≠ e.2 then
      .ok [{ testRunSource := if !e.2 then cur.source else prev.source,
             testRunExtId := if !e.2 then cur.extId else prev.extId,
             testBlueprintId := e.1 }]
    else .ok []

/-- The per-rerun loop of `markTestFlakesSince`: decode both specs against
the shared members, then collect the `entryFlake` of every entry of the
current run's result map. -/
def flakesForRow (members : List Int) (cur prev : TestRunRow) :
    Except String (List FlakeRow) := do
  let results ← decodeIDResults cur.resultSpec members
  let prevResults ← decodeIDResults prev.resultSpec members
  results.foldlM
    (fun acc e => do
      let fs ← entryFlake cur prev prevResults e
      pure (acc ++ fs))
    []

/-- The flakes contributed by one flaky-rerun row: the `LEFT JOIN` makes
`test_blueprint_ids` `NULL` when the run blueprint row is missing, which
crashes the decoder's iteration over the members. -/
def rowFlakes (st : DBState) (pr : TestRunRow × TestRunRow) :
    Except String (List FlakeRow) :=
  match lookupKey st.testRunBlueprints pr.2.blueprintId with
  | none => .error "TypeError: test_blueprint_ids is null"
  | some members => flakesForRow members pr.2 pr.1

/-- `markTestFlakesSince`: collect the flakes of every flaky rerun, then
insert them in one batch. The `INSERT INTO test_flakes` has no
`ON CONFLICT` clause and the table has no unique constraint, so the batch
always appends. Returns the inserted flakes and the new state. -/
def markTestFlakesSince (st : DBState) (cutoff : Int) :
    Except String (List FlakeRow × DBState) := do
  let newFlakes ← (flakyPairs st cutoff).foldlM
    (fun acc pr => do
      let fs ← rowFlakes st pr
      pure (acc ++ fs))
    []
  pure (newFlakes, { st with testFlakes := st.testFlakes ++ newFlakes })

/-- Timestamp-descending order for `ORDER BY timestamp DESC`. -/
def TsGeR (a b : TestRunRow) : Prop := b.timestamp ≤ a.timestamp

instance : DecidableRel TsGeR := fun a b => by unfold TsGeR; infer_instance

/-- A row returned by `fetchSomeTestRunsSinceDesc` (the TS code returns
`commit_id` as a string; the bytes are kept here). -/
structure FetchedRun where
  id : RunId
  timestamp : Int
  commitId : List Nat
  succeeded : Bool
deriving DecidableEq, Repr

/-- `fetchSomeTestRunsSinceDesc`: select runs (with `timestamp > cutoff`
when a cutoff is given), order by timestamp descending, take `count`, and
expose `succeeded` computed by the SQL expression
`result_spec IS NOT NULL AS succeeded`. -/
def fetchSomeTestRunsSinceDesc (count : Nat) (cutoff : Option Int)
    (st : DBState) : List FetchedRun :=
  let rows := match cutoff with
    | none => st.testRuns
    | some c => st.testRuns.filter (fun r => decide (c < r.timestamp))
  ((List.insertionSort TsGeR rows).take count).map (fun r =>
    { id := { source := r.source, extId := r.extId },
      timestamp := r.timestamp, commitId := r.commitId,
      succeeded := r.resultSpec.isSome })

/-! ## Concrete fixtures used by witnesses and counterexamples -/

/-- A concrete stand-in for the 8-byte SHAKE256 title digest, used only to
instantiate the abstract hash parameter on concrete inputs. -/
def Hx : String → List Nat := fun t =>
  if t = "b" then [0, 0, 0, 0, 0, 0, 0, 2] else [0, 0, 0, 0, 0, 0, 0, 1]

/-- A concrete stand-in for the list digest. -/
def HL0 : List Nat → List Nat := fun _ => [0, 0, 0, 0, 0, 0, 0, 9]

/-- A run of one test (id 42) with blueprint 7 at timestamp 0. -/
def run1 : TestRunRow :=
  { source := .appveyor, extId := 1, blueprintId := 7, timestamp := 0,
    branch := none, commitId := [], resultSpec := none }

/-- A second expired run sharing blueprint 7. -/
def run1b : TestRunRow :=
  { source := .appveyor, extId := 2, blueprintId := 7, timestamp := 0,
    branch := none, commitId := [], resultSpec := none }

/-- State with a single run referencing blueprint 7 → member 42. -/
def st1 : DBState :=
  { testBlueprints := [(42, "a")], testRunBlueprints := [(7, [42])],
    testRuns := [run1], testFlakes := [] }

/-- State with two expired runs sharing blueprint 7 → member 42. -/
def st1b : DBState :=
  { testBlueprints := [(42, "a")], testRunBlueprints := [(7, [42])],
    testRuns := [run1, run1b], testFlakes := [] }

/-- An expired run on blueprint 7 and a surviving run on blueprint 8. -/
def runE : TestRunRow :=
  { source := .appveyor, extId := 1, blueprintId := 7, timestamp := 0,
    branch := none, commitId := [], resultSpec := none }

def runS : TestRunRow :=
  { source := .circleci, extId := 5, blueprintId := 8, timestamp := 2,
    branch := none, commitId := [], resultSpec := none }

/-- A flake referencing the surviving run `runS`. -/
def flake2 : FlakeRow :=
  { testRunSource := .circleci, testRunExtId := 5, testBlueprintId := 42 }

/-- State where a flake references a run that survives the cutoff. -/
def st2 : DBState :=
  { testBlueprints := [(41, "x"), (42, "y")],
    testRunBlueprints := [(7, [41]), (8, [42])],
    testRuns := [runE, runS], testFlakes := [flake2] }

/-- An all-passed run (`result_spec` NULL) and a run with failures. -/
def runP : TestRunRow :=
  { source := .appveyor, extId := 1, blueprintId := 7, timestamp := 5,
    branch := none, commitId := [], resultSpec := none }

def runF : TestRunRow :=
  { source := .appveyor, extId := 2, blueprintId := 7, timestamp := 3,
    branch := none, commitId := [],
    resultSpec := some [0, 0, 0, 0, 0, 0, 0, 0, 1] }

def st4 : DBState :=
  { testBlueprints := [], testRunBlueprints := [(7, [1])],
    testRuns := [runP, runF], testFlakes := [] }

/-- Rerun pair on the same `(blueprint_id, commit_id)`: test id 5 passed
in `runA` (absent spec) and failed in `runB` (failures-enumerated spec). -/
def runA : TestRunRow :=
  { source := .appveyor, extId := 1, blueprintId := 7, timestamp := 10,
    branch := none, commitId := [9], resultSpec := none }

def runB : TestRunRow :=
  { source := .appveyor, extId := 2, blueprintId := 7, timestamp := 20,
    branch := none, commitId := [9],
    resultSpec := some [0, 0, 0, 0, 0, 0, 0, 0, 5] }

def stF : DBState :=
  { testBlueprints := [(5, "t")], testRunBlueprints := [(7, [5])],
    testRuns := [runA, runB], testFlakes := [] }

/-- The flake the detector records for the `runA`/`runB` rerun. -/
def flakeB : FlakeRow :=
  { testRunSource := .appveyor, testRunExtId := 2, testBlueprintId := 5 }

/-- An ingest input with an empty results list. -/
def emptyRun : TestRunInput :=
  { id := { source := .appveyor, extId := 3 }, results := [],
    timestamp := 0, branch := none, commitId := [] }

/-- Results with a duplicated title and conflicting outcomes. -/
def dupResults : List TestResult :=
  [{ title := "a", passed := true }, { title := "a", passed := false }]

/-- A run whose two titles arrive in reverse byte order of their digests. -/
def unsortedRun : TestRunInput :=
  { id := { source := .appveyor, extId := 4 },
    results := [{ title := "b", passed := true }, { title := "a", passed := true }],
    timestamp := 0, branch := none, commitId := [] }

/-- The empty database. -/
def stEmpty : DBState :=
  { testBlueprints := [], testRunBlueprints := [], testRuns := [],
    testFlakes := [] }

/-! ## Helper lemmas: association lists and the decoder's result map -/

theorem lookupKey_append {α : Type} (m m' : List (Int × α)) (k : Int) :
    lookupKey (m ++ m') k =
      match lookupKey m k with
      | some v => some v
      | none => lookupKey m' k := by
  induction m with
  | nil => simp [lookupKey]
  | cons p t ih =>
    obtain ⟨k', v⟩ := p
    by_cases h : k = k' <;> simp [lookupKey, h, ih]

theorem lookupKey_eq_none_of_not_any {α : Type} (m : List (Int × α)) (k : Int)
    (h : m.any (fun p => decide (p.1 = k)) = false) : lookupKey m k = none := by
  induction m with
  | nil => rfl
  | cons p t ih =>
    simp only [List.any_cons, Bool.or_eq_false_iff] at h
    obtain ⟨k', v⟩ := p
    have hk : ¬ k = k' := by
      intro he
      simp [he] at h
    simp [lookupKey, hk, ih h.2]

theorem lookupKey_map_update_ne (m : List (Int × Bool)) (k' : Int) (v' : Bool)
    (k : Int) (hne : k ≠ k') :
    lookupKey (m.map (fun p => if p.1 = k' then (k', v') else p)) k =
      lookupKey m k := by
  induction m with
  | nil => rfl
  | cons p t ih =>
    obtain ⟨a, b⟩ := p
    simp only [List.map_cons]
    by_cases ha : a = k'
    · subst ha
      rw [if_pos rfl]
      simp only [lookupKey, if_neg hne]
      exact ih
    · rw [if_neg ha]
      by_cases hk : k = a
      · simp [lookupKey, hk]
      · simp [lookupKey, hk, ih]

theorem lookupKey_map_update_self (m : List (Int × Bool)) (k' : Int) (v' : Bool)
    (h : m.any (fun p => decide (p.1 = k')) = true) :
    lookupKey (m.map (fun p => if p.1 = k' then (k', v') else p)) k' =
      some v' := by
  induction m with
  | nil => simp at h
  | cons p t ih =>
    obtain ⟨a, b⟩ := p
    simp only [List.map_cons]
    by_cases ha : a = k'
    · subst ha
      rw [if_pos rfl]
      simp [lookupKey]
    · rw [if_neg ha]
      simp only [List.any_cons] at h
      have h' : t.any (fun p => decide (p.1 = k')) = true := by
        rcases Bool.or_eq_true_iff.mp h with h1 | h1
        · exact absurd (of_decide_eq_true h1) ha
        · exact h1
      have hne : ¬ k' = a := fun he => ha he.symm
      simp [lookupKey, hne, ih h']

theorem lookupKey_mapSet (m : List (Int × Bool)) (k' : Int) (v' : Bool)
    (k : Int) :
    lookupKey (mapSet m k' v') k =
      if k = k' then some v' else lookupKey m k := by
  unfold mapSet
  by_cases hany : m.any (fun p => decide (p.1 = k')) = true
  · by_cases hk : k = k'
    · subst hk
      simp [hany, lookupKey_map_update_self m k v' ]
    · simp [hany, hk, lookupKey_map_update_ne m k' v' k hk]
  · have hf : m.any (fun p => decide (p.1 = k')) = false :=
      Bool.eq_false_iff.mpr hany
    by_cases hk : k = k'
    · subst hk
      simp [hf, lookupKey_append, lookupKey_eq_none_of_not_any m k hf, lookupKey]
    · simp only [hf, Bool.false_eq_true, if_false, lookupKey_append]
      cases hl : lookupKey m k <;> simp [lookupKey, hk]

theorem lookupKey_foldl_mapSet (v : Int → Bool) (ids : List Int)
    (m : List (Int × Bool)) (k : Int) :
    lookupKey (ids.foldl (fun m i => mapSet m i (v i)) m) k =
      if k ∈ ids then some (v k) else lookupKey m k := by
  induction ids generalizing m with
  | nil => simp
  | cons i t ih =>
    simp only [List.foldl_cons, ih, lookupKey_mapSet, List.mem_cons]
    by_cases ht : k ∈ t
    · simp [ht]
    · by_cases hk : k = i <;> simp [ht, hk]

theorem lookupKey_buildResultMap (ids : List Int) (v : Int → Bool) (k : Int) :
    lookupKey (buildResultMap ids v) k =
      if k ∈ ids then some (v k) else none := by
  unfold buildResultMap
  rw [lookupKey_foldl_mapSet]
  rfl

theorem mapSet_map_self (v : Int → Bool) (ks : List Int) (i : Int) :
    mapSet (ks.map (fun k => (k, v k))) i (v i) =
      (if i ∈ ks then ks else ks ++ [i]).map (fun k => (k, v k)) := by
  unfold mapSet
  by_cases hmem : i ∈ ks
  · have hany : (ks.map (fun k => (k, v k))).any (fun p => decide (p.1 = i)) = true := by
      simp only [List.any_eq_true]
      exact ⟨(i, v i), List.mem_map.mpr ⟨i, hmem, rfl⟩, by simp⟩
    rw [if_pos hany, if_pos hmem, List.map_map]
    apply List.map_congr_left
    intro a _
    by_cases ha : a = i <;> simp [ha]
  · have hany : (ks.map (fun k => (k, v k))).any (fun p => decide (p.1 = i)) = false := by
      simp only [List.any_eq_false]
      intro p hp
      obtain ⟨c, hc, rfl⟩ := List.mem_map.mp hp
      have hci : c ≠ i := fun he => hmem (he ▸ hc)
      simpa using hci
    rw [if_neg (by simp [hany]), if_neg hmem, List.map_append]
    simp

theorem buildResultMap_eq_map_dedup (ids : List Int) (v : Int → Bool) :
    buildResultMap ids v = (dedupKeys ids).map (fun k => (k, v k)) := by
  unfold buildResultMap dedupKeys
  suffices h : ∀ (l : List Int) (ks : List Int),
      l.foldl (fun m i => mapSet m i (v i)) (ks.map (fun k => (k, v k))) =
        (l.foldl (fun acc i => if i ∈ acc then acc else acc ++ [i]) ks).map
          (fun k => (k, v k)) by
    have := h ids []
    simpa using this
  intro l
  induction l with
  | nil => intro ks; rfl
  | cons i t ih =>
    intro ks
    simp only [List.foldl_cons, mapSet_map_self]
    by_cases hmem : i ∈ ks
    · simp only [hmem, if_pos]
      exact ih ks
    · simp only [hmem, if_neg, if_false]
      exact ih (ks ++ [i])

theorem mem_foldl_dedup (l : List Int) (acc : List Int) (k : Int) :
    k ∈ l.foldl (fun acc i => if i ∈ acc then acc else acc ++ [i]) acc ↔
      k ∈ acc ∨ k ∈ l := by
  induction l generalizing acc with
  | nil => simp
  | cons i t ih =>
    simp only [List.foldl_cons]
    by_cases hmem : i ∈ acc
    · rw [if_pos hmem, ih]
      constructor
      · rintro (h | h)
        · exact Or.inl h
        · exact Or.inr (List.mem_cons_of_mem i h)
      · rintro (h | h)
        · exact Or.inl h
        · rcases List.mem_cons.mp h with h | h
          · exact Or.inl (h ▸ hmem)
          · exact Or.inr h
    · rw [if_neg hmem, ih]
      simp only [List.mem_append, List.mem_singleton, List.mem_cons]
      tauto

theorem mem_dedupKeys (l : List Int) (k : Int) : k ∈ dedupKeys l ↔ k ∈ l := by
  unfold dedupKeys
  rw [mem_foldl_dedup]
  simp

theorem nodup_foldl_dedup (l : List Int) (acc : List Int) (h : acc.Nodup) :
    (l.foldl (fun acc i => if i ∈ acc then acc else acc ++ [i]) acc).Nodup := by
  induction l generalizing acc with
  | nil => exact h
  | cons i t ih =>
    simp only [List.foldl_cons]
    by_cases hmem : i ∈ acc
    · rw [if_pos hmem]; exact ih acc h
    · rw [if_neg hmem]
      refine ih (acc ++ [i]) ?_
      simp [List.nodup_append, h, hmem]

theorem nodup_dedupKeys (l : List Int) : (dedupKeys l).Nodup :=
  nodup_foldl_dedup l [] List.nodup_nil

/-! ## Helper lemmas: payload parsing and 64-bit ids -/

theorem parseIDs_nil : parseIDs [] = .ok [] := rfl

theorem list_shape_of_length8 (c : List Nat) (hc : c.length = 8) :
    ∃ b0 b1 b2 b3 b4 b5 b6 b7, c = [b0, b1, b2, b3, b4, b5, b6, b7] := by
  rcases c with _ | ⟨b0, _ | ⟨b1, _ | ⟨b2, _ | ⟨b3, _ | ⟨b4, _ | ⟨b5, _ | ⟨b6, _ |
    ⟨b7, _ | ⟨b8, tail⟩⟩⟩⟩⟩⟩⟩⟩⟩ <;> simp_all

theorem parseIDs_cons8 (b0 b1 b2 b3 b4 b5 b6 b7 : Nat) (rest : List Nat) :
    parseIDs (b0 :: b1 :: b2 :: b3 :: b4 :: b5 :: b6 :: b7 :: rest) =
      match parseIDs rest with
      | .ok ids => .ok (toInt64 [b0, b1, b2, b3, b4, b5, b6, b7] :: ids)
      | .error e => .error e := rfl

theorem parseIDs_append8 (c rest : List Nat) (hc : c.length = 8) :
    parseIDs (c ++ rest) =
      match parseIDs rest with
      | .ok ids => .ok (toInt64 c :: ids)
      | .error e => .error e := by
  obtain ⟨b0, b1, b2, b3, b4, b5, b6, b7, rfl⟩ := list_shape_of_length8 c hc
  exact parseIDs_cons8 b0 b1 b2 b3 b4 b5 b6 b7 rest

theorem parseIDs_flatten (L : List (List Nat)) (h : ∀ x ∈ L, x.length = 8) :
    parseIDs L.flatten = .ok (L.map toInt64) := by
  induction L with
  | nil => simpa using parseIDs_nil
  | cons c t ih =>
    have hc : c.length = 8 := h c (List.mem_cons_self c t)
    have ht : ∀ x ∈ t, x.length = 8 := fun x hx => h x (List.mem_cons_of_mem c hx)
    rw [List.flatten_cons, parseIDs_append8 c t.flatten hc, ih ht]
    rfl

theorem parseIDs_ok_of_aligned (l : List Nat) (h : 8 ∣ l.length) :
    ∃ ids, parseIDs l = .ok ids := by
  generalize hn : l.length = n
  induction n using Nat.strong_induction_on generalizing l with
  | _ n ih =>
    by_cases hnil : l = []
    · subst hnil
      exact ⟨[], parseIDs_nil⟩
    · have hpos : 0 < l.length := List.length_pos.mpr hnil
      have h8 : 8 ≤ l.length := by
        rcases h with ⟨k, hk⟩
        rcases Nat.eq_zero_or_pos k with h0 | hkpos
        · omega
        · omega
      have htakelen : (l.take 8).length = 8 := by
        rw [List.length_take]
        omega
      have hsplit : l.take 8 ++ l.drop 8 = l := List.take_append_drop 8 l
      have hdropdvd : 8 ∣ (l.drop 8).length := by
        rcases h with ⟨k, hk⟩
        have : (l.drop 8).length = l.length - 8 := List.length_drop 8 l
        exact ⟨k - 1, by omega⟩
      have hlt : (l.drop 8).length < n := by
        have : (l.drop 8).length = l.length - 8 := List.length_drop 8 l
        omega
      obtain ⟨ids, hids⟩ := ih (l.drop 8).length hlt (l.drop 8) hdropdvd rfl
      refine ⟨toInt64 (l.take 8) :: ids, ?_⟩
      have hl : parseIDs l = parseIDs (l.take 8 ++ l.drop 8) := by rw [hsplit]
      rw [hl, parseIDs_append8 (l.take 8) (l.drop 8) htakelen, hids]

theorem decodeIDResults_none (allIDs : List Int) :
    decodeIDResults none allIDs =
      .ok (buildResultMap allIDs (fun _ => true)) := rfl

theorem decodeIDResults_tag (tag : Nat) (rest : List Nat) (allIDs : List Int) :
    decodeIDResults (some (tag :: rest)) allIDs =
      match parseIDs rest with
      | .error e => .error e
      | .ok ids => .ok (buildResultMap allIDs
          (fun id => if tag = 1 then ids.contains id else !(ids.contains id))) := rfl

theorem decodeIDResults_parse_ok (tag : Nat) (rest : List Nat)
    (allIDs : List Int) (ids : List Int) (h : parseIDs rest = .ok ids) :
    decodeIDResults (some (tag :: rest)) allIDs =
      .ok (buildResultMap allIDs
        (fun id => if tag = 1 then ids.contains id else !(ids.contains id))) := by
  rw [decodeIDResults_tag, h]

theorem beNat_lt (l : List Nat) (h : ∀ b ∈ l, b < 256) :
    beNat l < 256 ^ l.length := by
  induction l with
  | nil => simp [beNat]
  | cons b t ih =>
    have hb : b < 256 := h b (List.mem_cons_self b t)
    have ht := ih (fun x hx => h x (List.mem_cons_of_mem b hx))
    simp only [beNat, List.length_cons, pow_succ]
    calc b * 256 ^ t.length + beNat t
        < b * 256 ^ t.length + 256 ^ t.length := by omega
      _ = (b + 1) * 256 ^ t.length := by ring
      _ ≤ 256 * 256 ^ t.length := by
          have : b + 1 ≤ 256 := hb
          exact Nat.mul_le_mul_right _ this
      _ = 256 ^ t.length * 256 := by ring

theorem beNat_inj (a b : List Nat) (hlen : a.length = b.length)
    (ha : ∀ x ∈ a, x < 256) (hb : ∀ x ∈ b, x < 256)
    (h : beNat a = beNat b) : a = b := by
  induction a generalizing b with
  | nil =>
    cases b with
    | nil => rfl
    | cons y t => simp at hlen
  | cons x ta ih =>
    cases b with
    | nil => simp at hlen
    | cons y tb =>
      have hlen' : ta.length = tb.length := by simpa using hlen
      have hta : beNat ta < 256 ^ tb.length := by
        rw [← hlen']
        exact beNat_lt ta (fun z hz => ha z (List.mem_cons_of_mem x hz))
      have htb : beNat tb < 256 ^ tb.length :=
        beNat_lt tb (fun z hz => hb z (List.mem_cons_of_mem y hz))
      simp only [beNat, hlen'] at h
      have hCpos : 0 < 256 ^ tb.length := pow_pos (by norm_num) _
      have hxy : x = y := by
        have h1 : x * 256 ^ tb.length < (y + 1) * 256 ^ tb.length := by
          calc x * 256 ^ tb.length
              ≤ x * 256 ^ tb.length + beNat ta := Nat.le_add_right _ _
            _ = y * 256 ^ tb.length + beNat tb := h
            _ < y * 256 ^ tb.length + 256 ^ tb.length :=
                Nat.add_lt_add_left htb _
            _ = (y + 1) * 256 ^ tb.length := by ring
        have h2 : y * 256 ^ tb.length < (x + 1) * 256 ^ tb.length := by
          calc y * 256 ^ tb.length
              ≤ y * 256 ^ tb.length + beNat tb := Nat.le_add_right _ _
            _ = x * 256 ^ tb.length + beNat ta := h.symm
            _ < x * 256 ^ tb.length + 256 ^ tb.length :=
                Nat.add_lt_add_left hta _
            _ = (x + 1) * 256 ^ tb.length := by ring
        have h1' : x < y + 1 := lt_of_mul_lt_mul_right h1 (Nat.zero_le _)
        have h2' : y < x + 1 := lt_of_mul_lt_mul_right h2 (Nat.zero_le _)
        omega
      subst hxy
      have hAB : beNat ta = beNat tb := Nat.add_left_cancel h
      rw [ih tb hlen'
        (fun z hz => ha z (List.mem_cons_of_mem x hz))
        (fun z hz => hb z (List.mem_cons_of_mem x hz)) hAB]

theorem toInt64_inj (a b : List Nat) (hla : a.length = 8) (hlb : b.length = 8)
    (ha : ∀ x ∈ a, x < 256) (hb : ∀ x ∈ b, x < 256)
    (h : toInt64 a = toInt64 b) : a = b := by
  have hba : beNat a < 256 ^ 8 := hla ▸ beNat_lt a ha
  have hbb : beNat b < 256 ^ 8 := hlb ▸ beNat_lt b hb
  have h256 : (256 : Nat) ^ 8 = 2 ^ 64 := by norm_num
  apply beNat_inj a b (by rw [hla, hlb]) ha hb
  unfold toInt64 at h
  simp only at h
  by_cases h1 : beNat a < 2 ^ 63 <;> by_cases h2 : beNat b < 2 ^ 63 <;>
    simp only [h1, h2, if_pos, if_neg, if_true, if_false] at h <;> omega

/-! ## Helper lemmas: the byte ordering is a total order -/

theorem byteLe_cons_lt (x y : Nat) (ta tb : List Nat) (h : x < y) :
    byteLe (x :: ta) (y :: tb) = true := by
  simp [byteLe, h]

theorem byteLe_cons_gt (x y : Nat) (ta tb : List Nat) (h : y < x) :
    byteLe (x :: ta) (y :: tb) = false := by
  have : ¬ x < y := by omega
  simp [byteLe, this, h]

theorem byteLe_cons_self (x : Nat) (ta tb : List Nat) :
    byteLe (x :: ta) (x :: tb) = byteLe ta tb := by
  simp [byteLe]

theorem byteLe_total (a b : List Nat) : byteLe a b = true ∨ byteLe b a = true := by
  induction a generalizing b with
  | nil => left; rfl
  | cons x ta ih =>
    cases b with
    | nil => right; rfl
    | cons y tb =>
      rcases Nat.lt_trichotomy x y with hxy | hxy | hxy
      · left
        exact byteLe_cons_lt x y ta tb hxy
      · subst hxy
        rw [byteLe_cons_self, byteLe_cons_self]
        exact ih tb
      · right
        exact byteLe_cons_lt y x tb ta hxy

theorem byteLe_trans (a b c : List Nat) (hab : byteLe a b = true)
    (hbc : byteLe b c = true) : byteLe a c = true := by
  induction a generalizing b c with
  | nil => rfl
  | cons x ta ih =>
    cases b with
    | nil => simp [byteLe] at hab
    | cons y tb =>
      cases c with
      | nil => simp [byteLe] at hbc
      | cons z tc =>
        rcases Nat.lt_trichotomy x y with h1 | h1 | h1
        · rcases Nat.lt_trichotomy y z with h2 | h2 | h2
          · exact byteLe_cons_lt x z ta tc (by omega)
          · subst h2
            exact byteLe_cons_lt x y ta tc h1
          · rw [byteLe_cons_gt y z tb tc h2] at hbc
            exact absurd hbc (by simp)
        · subst h1
          rcases Nat.lt_trichotomy x z with h2 | h2 | h2
          · exact byteLe_cons_lt x z ta tc h2
          · subst h2
            rw [byteLe_cons_self] at hab hbc ⊢
            exact ih tb tc hab hbc
          · rw [byteLe_cons_gt x z tb tc h2] at hbc
            exact absurd hbc (by simp)
        · rw [byteLe_cons_gt x y ta tb h1] at hab
          exact absurd hab (by simp)

theorem byteLe_antisymm (a b : List Nat) (hab : byteLe a b = true)
    (hba : byteLe b a = true) : a = b := by
  induction a generalizing b with
  | nil =>
    cases b with
    | nil => rfl
    | cons y tb => simp [byteLe] at hba
  | cons x ta ih =>
    cases b with
    | nil => simp [byteLe] at hab
    | cons y tb =>
      rcases Nat.lt_trichotomy x y with h1 | h1 | h1
      · rw [byteLe_cons_gt y x tb ta h1] at hba
        exact absurd hba (by simp)
      · subst h1
        rw [byteLe_cons_self] at hab hba
        rw [ih tb hab hba]
      · rw [byteLe_cons_gt x y ta tb h1] at hab
        exact absurd hab (by simp)

instance : IsTotal (List Nat) ByteLeR := ⟨byteLe_total⟩

instance : IsTrans (List Nat) ByteLeR := ⟨byteLe_trans⟩

instance : IsAntisymm (List Nat) ByteLeR := ⟨byteLe_antisymm⟩

/-! ## Helper lemmas: collecting folds over `Except` -/

theorem exceptBind_error {α β : Type} (e : String) (g : α → Except String β) :
    (Except.error e >>= g) = Except.error e := rfl

theorem exceptBind_ok {α β : Type} (a : α) (g : α → Except String β) :
    (Except.ok a >>= g) = g a := rfl

theorem foldAppendM_ok {β γ : Type} (f : β → Except String (List γ)) :
    ∀ (l : List β) (acc out : List γ),
      (l.foldlM (fun a b => do
        let fs ← f b
        pure (a ++ fs)) acc = Except.ok out) →
      ∃ parts : List (List γ),
        List.Forall₂ (fun b fs => f b = Except.ok fs) l parts ∧
          out = acc ++ parts.flatten := by
  intro l
  induction l with
  | nil =>
    intro acc out h
    refine ⟨[], List.Forall₂.nil, ?_⟩
    simp only [List.foldlM_nil] at h
    cases h
    simp
  | cons b t ih =>
    intro acc out h
    simp only [List.foldlM_cons] at h
    cases hfb : f b with
    | error e =>
      rw [hfb, exceptBind_error, exceptBind_error] at h
      cases h
    | ok fs =>
      rw [hfb, exceptBind_ok] at h
      have h' : t.foldlM (fun a b => do
          let fs ← f b
          pure (a ++ fs)) (acc ++ fs) = Except.ok out := h
      obtain ⟨parts, hrel, hout⟩ := ih (acc ++ fs) out h'
      refine ⟨fs :: parts, List.Forall₂.cons hfb hrel, ?_⟩
      simp [hout]

theorem count_flatten_forall2 {β γ : Type} [DecidableEq γ]
    (f : β → Except String (List γ)) (t0 : γ) (cnt : β → Nat) :
    ∀ (l : List β) (parts : List (List γ)),
      List.Forall₂ (fun b fs => f b = Except.ok fs) l parts →
      (∀ b ∈ l, ∀ fs, f b = Except.ok fs → fs.count t0 = cnt b) →
      parts.flatten.count t0 = (l.map cnt).sum := by
  intro l
  induction l with
  | nil =>
    intro parts hrel _
    cases hrel
    simp
  | cons b t ih =>
    intro parts hrel hcnt
    cases hrel with
    | cons hfb htail =>
      rename_i fs parts'
      simp only [List.flatten_cons, List.count_append, List.map_cons,
        List.sum_cons]
      rw [hcnt b (List.mem_cons_self b t) fs hfb,
        ih parts' htail (fun x hx g hg => hcnt x (List.mem_cons_of_mem b hx) g hg)]

theorem forall2_mem_right {β γ : Type} {R : β → γ → Prop} :
    ∀ {l : List β} {parts : List γ}, List.Forall₂ R l parts →
      ∀ p ∈ parts, ∃ b ∈ l, R b p := by
  intro l
  induction l with
  | nil =>
    intro parts hrel p hp
    cases hrel
    simp at hp
  | cons b t ih =>
    intro parts hrel p hp
    cases hrel with
    | cons hfb htail =>
      rename_i fs parts'
      rcases List.mem_cons.mp hp with h | h
      · exact ⟨b, List.mem_cons_self b t, h ▸ hfb⟩
      · obtain ⟨b', hb', hR⟩ := ih htail p h
        exact ⟨b', List.mem_cons_of_mem b hb', hR⟩

/-! ## Helper lemmas: the flake pipeline -/

/-- Every result map produced by the decoder is a `buildResultMap` over the
given ids. -/
theorem decodeIDResults_ok_shape (spec : Option (List Nat)) (allIDs : List Int)
    (m : List (Int × Bool)) (h : decodeIDResults spec allIDs = Except.ok m) :
    ∃ v : Int → Bool, m = buildResultMap allIDs v := by
  unfold decodeIDResults at h
  split at h
  · cases h
    exact ⟨fun _ => true, rfl⟩
  · cases h
  · split at h
    · cases h
    · cases h
      exact ⟨_, rfl⟩

theorem entryFlake_spec (cur prev : TestRunRow) (pm : List (Int × Bool))
    (e : Int × Bool) (fs : List FlakeRow)
    (h : entryFlake cur prev pm e = Except.ok fs) :
    ∀ fl ∈ fs, fl.testBlueprintId = e.1 ∧
      ((fl.testRunSource = cur.source ∧ fl.testRunExtId = cur.extId) ∨
        (fl.testRunSource = prev.source ∧ fl.testRunExtId = prev.extId)) := by
  unfold entryFlake at h
  split at h
  · cases h
  · split at h
    · cases h
      intro fl hfl
      rcases List.mem_singleton.mp hfl with rfl
      refine ⟨rfl, ?_⟩
      by_cases he : e.2 <;> simp [he]
    · cases h
      intro fl hfl
      simp at hfl

theorem flakesForRow_sources (members : List Int) (cur prev : TestRunRow)
    (fs : List FlakeRow) (h : flakesForRow members cur prev = Except.ok fs) :
    ∀ fl ∈ fs,
      (fl.testRunSource = cur.source ∧ fl.testRunExtId = cur.extId) ∨
        (fl.testRunSource = prev.source ∧ fl.testRunExtId = prev.extId) := by
  unfold flakesForRow at h
  cases hc : decodeIDResults cur.resultSpec members with
  | error e =>
    rw [hc, exceptBind_error] at h
    cases h
  | ok results =>
    rw [hc, exceptBind_ok] at h
    cases hp : decodeIDResults prev.resultSpec members with
    | error e =>
      rw [hp, exceptBind_error] at h
      cases h
    | ok prevResults =>
      rw [hp, exceptBind_ok] at h
      obtain ⟨parts, hrel, hout⟩ :=
        foldAppendM_ok (entryFlake cur prev prevResults) results [] fs h
      intro fl hfl
      rw [hout] at hfl
      simp only [List.nil_append] at hfl
      obtain ⟨part, hpart, hflpart⟩ := List.mem_flatten.mp hfl
      obtain ⟨e, _, hR⟩ := forall2_mem_right hrel part hpart
      exact (entryFlake_spec cur prev prevResults e part hR fl hflpart).2

/-- Analysis of the `LAG` fold: its result is either the start value or an
element of the scanned list. -/
theorem prevFold_result (cond : TestRunRow → Prop) [DecidablePred cond] :
    ∀ (l : List TestRunRow) (best : Option TestRunRow) (p : TestRunRow),
      l.foldl (fun best q =>
        if cond q then
          match best with
          | none => some q
          | some b => if b.timestamp < q.timestamp then some q else some b
        else best) best = some p →
      best = some p ∨ p ∈ l := by
  intro l
  induction l with
  | nil =>
    intro best p h
    exact Or.inl h
  | cons q t ih =>
    intro best p h
    rw [List.foldl_cons] at h
    rcases ih _ p h with hstep | hmem
    · by_cases hc : cond q
      · rw [if_pos hc] at hstep
        cases best with
        | none =>
          cases hstep
          exact Or.inr (List.mem_cons_self q t)
        | some b =>
          have hstep' : (if b.timestamp < q.timestamp then some q else some b) =
              some p := hstep
          by_cases hts : b.timestamp < q.timestamp
          · rw [if_pos hts] at hstep'
            cases hstep'
            exact Or.inr (List.mem_cons_self q t)
          · rw [if_neg hts] at hstep'
            exact Or.inl hstep' 
      · rw [if_neg hc] at hstep
        exact Or.inl hstep
    · exact Or.inr (List.mem_cons_of_mem q hmem)

/-- If no scanned element satisfies the window condition, the fold keeps
its start value. -/
theorem prevFold_none (cond : TestRunRow → Prop) [DecidablePred cond] :
    ∀ (l : List TestRunRow) (h : ∀ q ∈ l, ¬ cond q),
      l.foldl (fun best q =>
        if cond q then
          match best with
          | none => some q
          | some b => if b.timestamp < q.timestamp then some q else some b
        else best) none = none := by
  intro l
  induction l with
  | nil => intro _; rfl
  | cons q t ih =>
    intro h
    rw [List.foldl_cons, if_neg (h q (List.mem_cons_self q t))]
    exact ih (fun x hx => h x (List.mem_cons_of_mem q hx))

/-- If `A` is the only element satisfying the window condition, the fold
finds exactly `A`. -/
theorem prevFold_only (cond : TestRunRow → Prop) [DecidablePred cond]
    (A : TestRunRow) (hApass : cond A) :
    ∀ (l : List TestRunRow) (honly : ∀ q ∈ l, cond q → q = A)
      (best : Option TestRunRow) (hbest : best = none ∨ best = some A),
      (A ∈ l → l.foldl (fun best q =>
        if cond q then
          match best with
          | none => some q
          | some b => if b.timestamp < q.timestamp then some q else some b
        else best) best = some A) ∧
      (A ∉ l → l.foldl (fun best q =>
        if cond q then
          match best with
          | none => some q
          | some b => if b.timestamp < q.timestamp then some q else some b
        else best) best = best) := by
  intro l
  induction l with
  | nil =>
    intro _ best _
    exact ⟨fun h => absurd h (List.not_mem_nil A), fun _ => rfl⟩
  | cons q t ih =>
    intro honly best hbest
    by_cases hq : cond q
    · have hqA : q = A := honly q (List.mem_cons_self q t) hq
      subst hqA
      have honly' : ∀ x ∈ t, cond x → x = q :=
        fun x hx hcx => honly x (List.mem_cons_of_mem q hx) hcx
      have iht := ih honly' (some q) (Or.inr rfl)
      have hfold : List.foldl (fun best q =>
          if cond q then
            match best with
            | none => some q
            | some b => if b.timestamp < q.timestamp then some q else some b
          else best) best (q :: t) = List.foldl (fun best q =>
          if cond q then
            match best with
            | none => some q
            | some b => if b.timestamp < q.timestamp then some q else some b
          else best) (some q) t := by
        rcases hbest with rfl | rfl
        · simp only [List.foldl_cons, if_pos hq]
        · simp only [List.foldl_cons, if_pos hq, ite_self]
      constructor
      · intro _
        rw [hfold]
        by_cases hmem : q ∈ t
        · exact iht.1 hmem
        · exact iht.2 hmem
      · intro hnm
        exact absurd (List.mem_cons_self q t) hnm
    · have honly' : ∀ x ∈ t, cond x → x = A :=
        fun x hx hcx => honly x (List.mem_cons_of_mem q hx) hcx
      have iht := ih honly' best hbest
      have hfold : List.foldl (fun best q =>
          if cond q then
            match best with
            | none => some q
            | some b => if b.timestamp < q.timestamp then some q else some b
          else best) best (q :: t) = List.foldl (fun best q =>
          if cond q then
            match best with
            | none => some q
            | some b => if b.timestamp < q.timestamp then some q else some b
          else best) best t := by
        simp only [List.foldl_cons, if_neg hq]
      constructor
      · intro hmem
        rcases List.mem_cons.mp hmem with hA | hA
        · rw [hA] at hApass
          exact absurd hApass hq
        · rw [hfold]
          exact iht.1 hA
      · intro hnm
        rw [hfold]
        exact iht.2 (fun hA => hnm (List.mem_cons_of_mem q hA))

theorem prevRun_mem (runs : List TestRunRow) (r p : TestRunRow)
    (h : prevRun runs r = some p) : p ∈ runs := by
  unfold prevRun at h
  rcases prevFold_result
    (fun q => q.blueprintId = r.blueprintId ∧ q.commitId = r.commitId ∧
      q.timestamp < r.timestamp) runs none p h with hc | hc
  · cases hc
  · exact hc

theorem prevRun_eq_none (runs : List TestRunRow) (r : TestRunRow)
    (h : ∀ q ∈ runs, ¬ (q.blueprintId = r.blueprintId ∧
      q.commitId = r.commitId ∧ q.timestamp < r.timestamp)) :
    prevRun runs r = none := by
  unfold prevRun
  exact prevFold_none _ runs h

theorem prevRun_only (runs : List TestRunRow) (r A : TestRunRow)
    (hApass : A.blueprintId = r.blueprintId ∧ A.commitId = r.commitId ∧
      A.timestamp < r.timestamp)
    (honly : ∀ q ∈ runs, (q.blueprintId = r.blueprintId ∧
      q.commitId = r.commitId ∧ q.timestamp < r.timestamp) → q = A)
    (hA : A ∈ runs) : prevRun runs r = some A := by
  unfold prevRun
  exact (prevFold_only
    (fun q => q.blueprintId = r.blueprintId ∧ q.commitId = r.commitId ∧
      q.timestamp < r.timestamp) A hApass runs honly none (Or.inl rfl)).1 hA

theorem count_filterMap_eq_count {β γ : Type} [DecidableEq β] [DecidableEq γ]
    (g : β → Option γ) (B : β) (P : γ) (hgB : g B = some P)
    (hback : ∀ b pr, g b = some pr → pr = P → b = B) :
    ∀ l : List β, (l.filterMap g).count P = l.count B := by
  intro l
  induction l with
  | nil => simp
  | cons b t ih =>
    by_cases hbB : b = B
    · subst hbB
      rw [List.filterMap_cons, hgB]
      rw [List.count_cons_self, List.count_cons_self, ih]
    · rw [List.filterMap_cons]
      cases hb : g b with
      | none =>
        rw [List.count_cons_of_ne (Ne.symm hbB), ih]
      | some pr =>
        have hprP : pr ≠ P := fun hP => hbB (hback b pr hb hP)
        rw [List.count_cons_of_ne (Ne.symm hprP),
          List.count_cons_of_ne (Ne.symm hbB), ih]

theorem sum_indicator_eq_count {α : Type} [DecidableEq α] (t0 : α) :
    ∀ l : List α, (l.map (fun k => if k = t0 then 1 else 0)).sum = l.count t0 := by
  intro l
  induction l with
  | nil => simp
  | cons k t ih =>
    by_cases hk : k = t0
    · subst hk
      simp [List.count_cons_self, ih]
      omega
    · rw [List.map_cons, List.sum_cons, if_neg hk,
        List.count_cons_of_ne (Ne.symm hk), ih]
      simp

theorem length_flatMap_eight {α : Type} (g : α → List Nat) (l : List α)
    (h : ∀ x ∈ l, (g x).length = 8) :
    (l.flatMap g).length = 8 * l.length := by
  induction l with
  | nil => simp
  | cons x t ih =>
    rw [List.flatMap_cons, List.length_append,
      h x (List.mem_cons_self x t),
      ih (fun y hy => h y (List.mem_cons_of_mem x hy))]
    simp [List.length_cons]
    ring

theorem lookupKey_insertIfAbsent_self {α : Type} (l : List (Int × α))
    (e : Int × α) (h : lookupKey l e.1 = none) :
    lookupKey (insertIfAbsent l e) e.1 = some e.2 := by
  unfold insertIfAbsent
  rw [h]
  simp only [Option.isSome_none, Bool.false_eq_true, if_false]
  rw [lookupKey_append, h]
  simp [lookupKey]

theorem markTestFlakesSince_ok_decomp (st : DBState) (cutoff : Int)
    (out : List FlakeRow) (st' : DBState)
    (h : markTestFlakesSince st cutoff = Except.ok (out, st')) :
    (flakyPairs st cutoff).foldlM
      (fun acc pr => do
        let fs ← rowFlakes st pr
        pure (acc ++ fs)) [] = Except.ok out ∧
      st' = { st with testFlakes := st.testFlakes ++ out } := by
  unfold markTestFlakesSince at h
  cases hc : (flakyPairs st cutoff).foldlM
      (fun acc pr => do
        let fs ← rowFlakes st pr
        pure (acc ++ fs)) [] with
  | error e =>
    rw [hc, exceptBind_error] at h
    cases h
  | ok nf =>
    rw [hc, exceptBind_ok] at h
    cases h
    exact ⟨rfl, rfl⟩

theorem markTestFlakesSince_ok_build (st : DBState) (cutoff : Int)
    (out : List FlakeRow)
    (h : (flakyPairs st cutoff).foldlM
      (fun acc pr => do
        let fs ← rowFlakes st pr
        pure (acc ++ fs)) [] = Except.ok out) :
    markTestFlakesSince st cutoff =
      Except.ok (out, { st with testFlakes := st.testFlakes ++ out }) := by
  unfold markTestFlakesSince
  rw [h, exceptBind_ok]
  rfl

/-! ## Claim theorems -/

/-- C1: the claim states that after `deleteTestRunsBefore(cutoff)` no
expired run remains, no orphaned blueprint of either kind remains (also
when several expired runs share one blueprint), and a second pass is a
no-op. Evaluating the code: in `st1` (one expired run referencing
blueprint 7) the pass deletes the run and its test blueprint but leaves
the now-orphaned `test_run_blueprints` row `(7, [42])` — the final
`DELETE FROM test_run_blueprints WHERE id = ANY ($1)` receives only SQL
`NULL`s because the candidate query selected no `id` column. In `st1b`
(two expired runs sharing blueprint 7) the candidate count is `2·2 = 4`,
so the blueprint is not even detected, and both the orphaned
`test_run_blueprints` row and the orphaned `test_blueprints` row
survive. -/
theorem c1_delete_leaves_orphans :
    deleteTestRunsBefore 1 st1 = Except.ok
      ({ testBlueprints := [], testRunBlueprints := [(7, [42])],
         testRuns := [], testFlakes := [] }, 1) ∧
    deleteTestRunsBefore 1 st1b = Except.ok
      ({ testBlueprints := [(42, "a")], testRunBlueprints := [(7, [42])],
         testRuns := [], testFlakes := [] }, 2) := by
  constructor
  · rfl
  · rfl

/-- C2: the claim states that exactly the flakes whose referenced run is
expired are deleted. Evaluating the code on `st2`: the flake `flake2`
references the surviving run `runS` (timestamp 2 ≥ cutoff 1), yet the
pass deletes it — `DELETE FROM test_flakes USING test_runs WHERE
test_runs.timestamp < $1` has no join condition between the flake and the
run, so one expired run wipes the whole table. -/
theorem c2_delete_flakes_overreach :
    deleteTestRunsBefore 1 st2 = Except.ok
      ({ testBlueprints := [(42, "y")],
         testRunBlueprints := [(7, [41]), (8, [42])],
         testRuns := [runS], testFlakes := [] }, 1) ∧
    st2.testFlakes = [flake2] ∧
    flake2.testRunSource = runS.source ∧
    flake2.testRunExtId = runS.extId ∧
    ¬ runS.timestamp < 1 := by
  refine ⟨rfl, rfl, rfl, rfl, ?_⟩
  decide

/-- C4: the claim states `succeeded = (result_spec IS NULL)`. Evaluating
the code on `st4`: rows do come back ordered descending by timestamp, but
the all-passed run `runP` (`result_spec` NULL) is reported with
`succeeded = false` and the failing run `runF` with `succeeded = true` —
the SQL computes `result_spec IS NOT NULL AS succeeded`, the negation of
the specified value. -/
theorem c4_succeeded_inverted :
    fetchSomeTestRunsSinceDesc 10 none st4 =
      [{ id := { source := .appveyor, extId := 1 }, timestamp := 5,
         commitId := [], succeeded := false },
       { id := { source := .appveyor, extId := 2 }, timestamp := 3,
         commitId := [], succeeded := true }] ∧
    runP.resultSpec = none ∧ runF.resultSpec.isSome = true := by
  refine ⟨rfl, rfl, rfl⟩

/-- C9 (counterexample): the claim states that an empty results list is
rejected with an `ExternalInput` error before a transaction is opened.
Evaluating the code: the transaction is opened (`txOpened = true`) and
the failure is a database syntax error from the malformed empty `VALUES`
list, not an input-validation error. -/
theorem c9_counterexample :
    (createTestRun Hx HL0 emptyRun st1).txOpened = true ∧
    (createTestRun Hx HL0 emptyRun st1).err = some DBErr.sqlSyntax ∧
    emptyRun.results = [] := by
  refine ⟨rfl, rfl, rfl⟩

/-- C9 (amended): `createTestRun` performs no input validation. On an
empty results list it opens the transaction unconditionally, the first
`INSERT` fails as malformed SQL (an empty `VALUES` list), and the
rollback leaves the database unchanged. -/
theorem c9_empty_results_fails_inside_transaction
    (H : String → List Nat) (HL : List Nat → List Nat)
    (run : TestRunInput) (st : DBState) (h : run.results = []) :
    createTestRun H HL run st =
      { txOpened := true, err := some DBErr.sqlSyntax, newState := st } := by
  unfold createTestRun
  rw [h]
  rfl

theorem c9_witness :
    createTestRun Hx HL0 emptyRun st1 =
      { txOpened := true, err := some DBErr.sqlSyntax, newState := st1 } :=
  c9_empty_results_fails_inside_transaction Hx HL0 emptyRun st1 rfl

/-- C10 (counterexample): the claim states that for every non-null
payload whose first byte is neither 0 nor 1 the decoder reports no error.
The payload `[2, 5]` has first byte 2, yet the decoder reports the
corrupt-payload error (the byte after the tag is a short chunk), so the
"reports no error" part does not hold for every such payload. -/
theorem c10_counterexample :
    decodeIDResults (some [2, 5]) [] =
      Except.error "Expected a 64-bit digest" ∧
    (2 : Nat) ≠ 0 ∧ (2 : Nat) ≠ 1 := by
  refine ⟨rfl, ?_, ?_⟩ <;> decide

/-- C10 (amended): for every payload whose first byte is not 1 — in
particular the tags 2–255 the encoder never produces — the decoder
behaves exactly as if the tag were 0; and whenever the payload after the
tag is 8-byte aligned it reports no error and maps each id of `allIDs` to
passed iff it is not among the enumerated ids. -/
theorem c10_unknown_tag_decodes_as_failures (tag : Nat) (rest : List Nat)
    (allIDs : List Int) (htag : tag ≠ 1) (halign : 8 ∣ rest.length) :
    decodeIDResults (some (tag :: rest)) allIDs =
      decodeIDResults (some (0 :: rest)) allIDs ∧
    ∃ ids, parseIDs rest = Except.ok ids ∧
      decodeIDResults (some (tag :: rest)) allIDs =
        Except.ok (buildResultMap allIDs (fun id => !(ids.contains id))) := by
  obtain ⟨ids, hids⟩ := parseIDs_ok_of_aligned rest halign
  have hv : (fun id => if tag = 1 then ids.contains id else !(ids.contains id)) =
      (fun id : Int => !(ids.contains id)) := by
    funext id
    rw [if_neg htag]
  have hmain : decodeIDResults (some (tag :: rest)) allIDs =
      Except.ok (buildResultMap allIDs (fun id => !(ids.contains id))) := by
    rw [decodeIDResults_parse_ok tag rest allIDs ids hids, hv]
  refine ⟨?_, ids, hids, hmain⟩
  rw [hmain]
  have hv0 : (fun id : Int => if 0 = 1 then ids.contains id else !(ids.contains id)) =
      (fun id : Int => !(ids.contains id)) := by
    funext id
    rw [if_neg (by decide)]
  rw [decodeIDResults_parse_ok 0 rest allIDs ids hids, hv0]

theorem c10_witness :
    decodeIDResults (some [2, 0, 0, 0, 0, 0, 0, 0, 5]) [5] =
      decodeIDResults (some [0, 0, 0, 0, 0, 0, 0, 0, 5]) [5] ∧
    parseIDs [0, 0, 0, 0, 0, 0, 0, 5] = Except.ok [5] ∧
    decodeIDResults (some [2, 0, 0, 0, 0, 0, 0, 0, 5]) [5] =
      Except.ok (buildResultMap [5]
        (fun id => !(([5] : List Int).contains id))) := by
  obtain ⟨h1, ids, h2, h3⟩ := c10_unknown_tag_decodes_as_failures 2
    [0, 0, 0, 0, 0, 0, 0, 5] [5] (by decide) (by decide)
  have hids : ids = [5] :=
    Except.ok.inj (h2.symm.trans
      (show parseIDs [0, 0, 0, 0, 0, 0, 0, 5] = Except.ok [5] from rfl))
  subst hids
  exact ⟨h1, h2, h3⟩

/-- C5 (counterexample): the claim states the stored `test_blueprint_ids`
array is sorted ascending by raw digest bytes. Ingesting a run whose two
titles arrive in reverse byte order of their digests stores `[2, 1]` —
the input order — while the byte-sorted order is `[1, 2]`. -/
theorem c5_counterexample :
    (createTestRun Hx HL0 unsortedRun stEmpty).newState.testRunBlueprints =
      [(9, [2, 1])] ∧
    (List.insertionSort ByteLeR [Hx "b", Hx "a"]).map toInt64 = [1, 2] ∧
    ([(2 : Int), 1] : List Int) ≠ [1, 2] := by
  refine ⟨rfl, by decide, by decide⟩

theorem createTestRun_eq (H : String → List Nat) (HL : List Nat → List Nat)
    (run : TestRunInput) (st : DBState) (hne : run.results ≠ []) :
    createTestRun H HL run st =
      { txOpened := true, err := none,
        newState :=
          { testBlueprints := (run.results.map (fun r => (H r.title, r.title))).foldl
              (fun acc e => insertIfAbsent acc (toInt64 e.1, e.2)) st.testBlueprints,
            testRunBlueprints := insertIfAbsent st.testRunBlueprints
              (toInt64 (deriveBlueprintIDForList HL
                  (run.results.map (fun x => H x.title))),
               run.results.map (fun x => toInt64 (H x.title))),
            testRuns := if st.testRuns.any (fun r =>
                decide (r.source = run.id.source) &&
                  decide (r.extId = run.id.extId)) then
                st.testRuns
              else st.testRuns ++
                [{ source := run.id.source, extId := run.id.extId,
                   blueprintId := toInt64 (deriveBlueprintIDForList HL
                     (run.results.map (fun x => H x.title))),
                   timestamp := run.timestamp, branch := run.branch,
                   commitId := run.commitId,
                   resultSpec := encodeFromResults H run.results }],
            testFlakes := st.testFlakes } } := by
  have hne' : (run.results.map (fun r => (H r.title, r.title))).isEmpty = false := by
    rcases hr : run.results with _ | ⟨a, t⟩
    · exact absurd hr hne
    · rfl
  simp only [createTestRun, hne', Bool.false_eq_true, if_false, List.map_map]
  rfl

/-- C5 (amended): the stored `test_blueprint_ids` array lists the member
digests in the input order of the run's results (not byte-sorted); only
the `TestRunBlueprint` id is derived from the byte-sorted member list, so
the id — but not the stored array — is invariant under permutation of the
results. -/
theorem c5_members_input_order :
    (∀ (H : String → List Nat) (HL : List Nat → List Nat)
      (run : TestRunInput) (st : DBState), run.results ≠ [] →
      lookupKey st.testRunBlueprints
        (toInt64 (deriveBlueprintIDForList HL
          (run.results.map (fun x => H x.title)))) = none →
      lookupKey (createTestRun H HL run st).newState.testRunBlueprints
        (toInt64 (deriveBlueprintIDForList HL
          (run.results.map (fun x => H x.title)))) =
        some (run.results.map (fun x => toInt64 (H x.title)))) ∧
    (∀ (HL : List Nat → List Nat) (ids ids' : List (List Nat)),
      ids.Perm ids' →
      deriveBlueprintIDForList HL ids = deriveBlueprintIDForList HL ids') := by
  constructor
  · intro H HL run st hne hnew
    rw [createTestRun_eq H HL run st hne]
    exact lookupKey_insertIfAbsent_self st.testRunBlueprints
      (toInt64 (deriveBlueprintIDForList HL
        (run.results.map (fun x => H x.title))),
       run.results.map (fun x => toInt64 (H x.title))) hnew
  · intro HL ids ids' hperm
    unfold deriveBlueprintIDForList
    have hsort : List.insertionSort ByteLeR ids = List.insertionSort ByteLeR ids' :=
      List.eq_of_perm_of_sorted
        ((List.perm_insertionSort ByteLeR ids).trans
          (hperm.trans (List.perm_insertionSort ByteLeR ids').symm))
        (List.sorted_insertionSort ByteLeR ids)
        (List.sorted_insertionSort ByteLeR ids')
    rw [hsort]

theorem c5_witness :
    lookupKey (createTestRun Hx HL0 unsortedRun stEmpty).newState.testRunBlueprints
      (toInt64 (deriveBlueprintIDForList HL0
        (unsortedRun.results.map (fun x => Hx x.title)))) =
      some (unsortedRun.results.map (fun x => toInt64 (Hx x.title))) :=
  c5_members_input_order.1 Hx HL0 unsortedRun stEmpty
    (by decide) (by decide)

theorem countP_add_countP_not {α : Type} (q : α → Bool) (l : List α) :
    l.countP q + l.countP (fun x => !q x) = l.length := by
  induction l with
  | nil => simp
  | cons x t ih =>
    simp only [List.countP_cons, List.length_cons]
    by_cases hx : q x = true <;> simp [hx] <;> omega

/-- C6: the compression rule of `ResultSpec.encodeFromResults`. With `p`
passed and `f` failed results: if `f = 0` the spec is absent; if
`0 < f ≤ p` the payload is tag byte 0 followed by the ids of the failed
tests in input order; if `p < f` it is tag byte 1 followed by the ids of
the passed tests in input order; in both cases the payload length is
`1 + 8·min(p, f)` bytes. -/
theorem c6_encode_shape (H : String → List Nat) (hlen : ∀ t, (H t).length = 8)
    (r : List TestResult) :
    (r.countP (fun x => !x.passed) = 0 → encodeFromResults H r = none) ∧
    (0 < r.countP (fun x => !x.passed) →
      r.countP (fun x => !x.passed) ≤ r.countP (fun x => x.passed) →
      encodeFromResults H r = some ((0 : Nat) ::
        (r.filter (fun x => x.passed = false)).flatMap (fun x => H x.title)) ∧
      ((0 : Nat) :: (r.filter (fun x => x.passed = false)).flatMap
          (fun x => H x.title)).length =
        1 + 8 * min (r.countP (fun x => x.passed))
          (r.countP (fun x => !x.passed))) ∧
    (r.countP (fun x => x.passed) < r.countP (fun x => !x.passed) →
      encodeFromResults H r = some ((1 : Nat) ::
        (r.filter (fun x => x.passed = true)).flatMap (fun x => H x.title)) ∧
      ((1 : Nat) :: (r.filter (fun x => x.passed = true)).flatMap
          (fun x => H x.title)).length =
        1 + 8 * min (r.countP (fun x => x.passed))
          (r.countP (fun x => !x.passed))) := by
  have hpf : r.countP (fun x => x.passed) + r.countP (fun x => !x.passed) =
      r.length := countP_add_countP_not (fun x => x.passed) r
  refine ⟨?_, ?_, ?_⟩
  · intro hf0
    have hp : r.countP (fun x => x.passed) = r.length := by omega
    simp only [encodeFromResults]
    rw [if_pos hp]
  · intro hfpos hfle
    have hp : ¬ r.countP (fun x => x.passed) = r.length := by omega
    have he : decide (2 * r.countP (fun x => x.passed) < r.length) = false :=
      decide_eq_false (by omega)
    constructor
    · simp only [encodeFromResults]
      rw [if_neg hp, he]
      rfl
    · have hflen : ((r.filter (fun x => x.passed = false)).flatMap
          (fun x => H x.title)).length =
          8 * (r.filter (fun x => x.passed = false)).length :=
        length_flatMap_eight _ _ (fun x _ => hlen x.title)
      have hfilter : (r.filter (fun x => x.passed = false)).length =
          r.countP (fun x => !x.passed) := by
        rw [← List.countP_eq_length_filter]
        exact List.countP_congr (fun x _ => by cases hx : x.passed <;> simp [hx])
      rw [List.length_cons, hflen, hfilter, Nat.min_eq_right hfle]
      omega
  · intro hplt
    have hp : ¬ r.countP (fun x => x.passed) = r.length := by omega
    have he : decide (2 * r.countP (fun x => x.passed) < r.length) = true :=
      decide_eq_true (by omega)
    constructor
    · simp only [encodeFromResults]
      rw [if_neg hp, he]
      rfl
    · have hflen : ((r.filter (fun x => x.passed = true)).flatMap
          (fun x => H x.title)).length =
          8 * (r.filter (fun x => x.passed = true)).length :=
        length_flatMap_eight _ _ (fun x _ => hlen x.title)
      have hfilter : (r.filter (fun x => x.passed = true)).length =
          r.countP (fun x => x.passed) := by
        rw [← List.countP_eq_length_filter]
        exact List.countP_congr (fun x _ => by cases hx : x.passed <;> simp [hx])
      rw [List.length_cons, hflen, hfilter, Nat.min_eq_left (by omega)]
      omega

theorem c6_witness :
    encodeFromResults Hx dupResults = some ((0 : Nat) ::
      (dupResults.filter (fun x => x.passed = false)).flatMap
        (fun x => Hx x.title)) ∧
    ((0 : Nat) :: (dupResults.filter (fun x => x.passed = false)).flatMap
        (fun x => Hx x.title)).length =
      1 + 8 * min (dupResults.countP (fun x => x.passed))
        (dupResults.countP (fun x => !x.passed)) :=
  (c6_encode_shape Hx
    (fun t => by by_cases h : t = "b" <;> simp [Hx, h]) dupResults).2.1
    (by decide) (by decide)

/-- C3 (counterexample): the claim asserts the round-trip for any result
list including duplicate titles. With `dupResults = [("a", ✓), ("a", ✗)]`
the encoded spec enumerates the failure id `1 = toInt64 (Hx "a")`, and the
decoded map sends that id to `false` — but the first entry with the very
same id has `passed = true`, so the decoded outcome does not recover that
entry's flag. -/
theorem c3_counterexample :
    toInt64 (Hx "a") = 1 ∧
    TestResult.mk "a" true ∈ dupResults ∧
    decodeIDResults (encodeFromResults Hx dupResults)
      (dupResults.map (fun x => toInt64 (Hx x.title))) =
      Except.ok [(1, false)] ∧
    lookupKey [((1 : Int), false)] 1 = some false := by
  refine ⟨by decide, by decide, rfl, rfl⟩

/-- C3 (amended): the round-trip holds for every result list in which any
two entries with colliding ids (in particular entries with duplicate
titles) agree on `passed`: decoding the encoding of `r` relative to the
ids of `r`'s members (in input order) maps the id of every entry of `r`
to that entry's flag. The hypotheses on `H` state that digests are 8
bytes of values < 256, which the real SHAKE256 digest always satisfies. -/
theorem c3_roundtrip (H : String → List Nat)
    (hlen : ∀ t, (H t).length = 8)
    (hbyte : ∀ t, ∀ b ∈ H t, b < 256)
    (r : List TestResult)
    (hcons : ∀ x ∈ r, ∀ y ∈ r, H x.title = H y.title → x.passed = y.passed) :
    ∃ m, decodeIDResults (encodeFromResults H r)
        (r.map (fun x => toInt64 (H x.title))) = Except.ok m ∧
      ∀ x ∈ r, lookupKey m (toInt64 (H x.title)) = some x.passed := by
  have hinj : ∀ x y : TestResult, toInt64 (H x.title) = toInt64 (H y.title) →
      H x.title = H y.title := fun x y h =>
    toInt64_inj (H x.title) (H y.title) (hlen x.title) (hlen y.title)
      (hbyte x.title) (hbyte y.title) h
  by_cases hall : r.countP (fun x => x.passed) = r.length
  · have henc : encodeFromResults H r = none := by
      simp only [encodeFromResults]
      rw [if_pos hall]
    refine ⟨buildResultMap (r.map (fun x => toInt64 (H x.title))) (fun _ => true),
      by rw [henc]; exact decodeIDResults_none _, ?_⟩
    intro x hx
    rw [lookupKey_buildResultMap, if_pos (List.mem_map.mpr ⟨x, hx, rfl⟩)]
    have hxp : x.passed = true := List.countP_eq_length.mp hall x hx
    rw [hxp]
  · have hencode : encodeFromResults H r = some
        ((if (decide (2 * r.countP (fun x => x.passed) < r.length) : Bool)
            then (1 : Nat) else 0) ::
          (r.filter (fun x => x.passed =
              (decide (2 * r.countP (fun x => x.passed) < r.length) : Bool))).flatMap
            (fun x => H x.title)) := by
      simp only [encodeFromResults]
      rw [if_neg hall]
    cases heb : (decide (2 * r.countP (fun x => x.passed) < r.length) : Bool) with
    | false =>
      rw [heb] at hencode
      have hparse : parseIDs ((r.filter (fun x => x.passed = false)).flatMap
          (fun x => H x.title)) = Except.ok
            ((r.filter (fun x => x.passed = false)).map
              (fun x => toInt64 (H x.title))) := by
        have := parseIDs_flatten ((r.filter (fun x => x.passed = false)).map
            (fun x => H x.title))
          (by
            intro x hx
            obtain ⟨y, _, rfl⟩ := List.mem_map.mp hx
            exact hlen y.title)
        rw [List.map_map] at this
        exact this
      have hdec := decodeIDResults_parse_ok 0
        ((r.filter (fun x => x.passed = false)).flatMap (fun x => H x.title))
        (r.map (fun x => toInt64 (H x.title)))
        ((r.filter (fun x => x.passed = false)).map (fun x => toInt64 (H x.title)))
        hparse
      refine ⟨_, by rw [hencode]; exact hdec, ?_⟩
      intro x hx
      rw [lookupKey_buildResultMap, if_pos (List.mem_map.mpr ⟨x, hx, rfl⟩)]
      have hcont : ((r.filter (fun y => y.passed = false)).map
          (fun y => toInt64 (H y.title))).contains (toInt64 (H x.title)) =
          decide (x.passed = false) := by
        by_cases hxe : x.passed = false
        · rw [decide_eq_true hxe]
          exact List.elem_eq_true_of_mem (List.mem_map.mpr
            ⟨x, List.mem_filter.mpr ⟨hx, by simp [hxe]⟩, rfl⟩)
        · rw [decide_eq_false hxe]
          by_contra hcf
          have hmem : toInt64 (H x.title) ∈
              (r.filter (fun y => y.passed = false)).map
                (fun y => toInt64 (H y.title)) :=
            List.mem_of_elem_eq_true (by
              cases hc : ((r.filter (fun y => y.passed = false)).map
                  (fun y => toInt64 (H y.title))).contains (toInt64 (H x.title))
              · exact absurd hc hcf
              · exact hc)
          obtain ⟨y, hyf, hyx⟩ := List.mem_map.mp hmem
          obtain ⟨hyr, hyp⟩ := List.mem_filter.mp hyf
          have : y.passed = x.passed := hcons y hyr x hx (hinj y x hyx)
          simp at hyp
          rw [hyp] at this
          exact hxe this.symm
      have hv : (if (0 : Nat) = 1 then
          ((r.filter (fun y => y.passed = false)).map
            (fun y => toInt64 (H y.title))).contains (toInt64 (H x.title))
        else !(((r.filter (fun y => y.passed = false)).map
            (fun y => toInt64 (H y.title))).contains (toInt64 (H x.title)))) =
          x.passed := by
        rw [if_neg (by decide), hcont]
        cases hxp : x.passed <;> simp [hxp]
      rw [hv]
    | true =>
      rw [heb] at hencode
      have hparse : parseIDs ((r.filter (fun x => x.passed = true)).flatMap
          (fun x => H x.title)) = Except.ok
            ((r.filter (fun x => x.passed = true)).map
              (fun x => toInt64 (H x.title))) := by
        have := parseIDs_flatten ((r.filter (fun x => x.passed = true)).map
            (fun x => H x.title))
          (by
            intro x hx
            obtain ⟨y, _, rfl⟩ := List.mem_map.mp hx
            exact hlen y.title)
        rw [List.map_map] at this
        exact this
      have hdec := decodeIDResults_parse_ok 1
        ((r.filter (fun x => x.passed = true)).flatMap (fun x => H x.title))
        (r.map (fun x => toInt64 (H x.title)))
        ((r.filter (fun x => x.passed = true)).map (fun x => toInt64 (H x.title)))
        hparse
      refine ⟨_, by rw [hencode]; exact hdec, ?_⟩
      intro x hx
      rw [lookupKey_buildResultMap, if_pos (List.mem_map.mpr ⟨x, hx, rfl⟩)]
      have hcont : ((r.filter (fun y => y.passed = true)).map
          (fun y => toInt64 (H y.title))).contains (toInt64 (H x.title)) =
          decide (x.passed = true) := by
        by_cases hxe : x.passed = true
        · rw [decide_eq_true hxe]
          exact List.elem_eq_true_of_mem (List.mem_map.mpr
            ⟨x, List.mem_filter.mpr ⟨hx, by simp [hxe]⟩, rfl⟩)
        · rw [decide_eq_false hxe]
          by_contra hcf
          have hmem : toInt64 (H x.title) ∈
              (r.filter (fun y => y.passed = true)).map
                (fun y => toInt64 (H y.title)) :=
            List.mem_of_elem_eq_true (by
              cases hc : ((r.filter (fun y => y.passed = true)).map
                  (fun y => toInt64 (H y.title))).contains (toInt64 (H x.title))
              · exact absurd hc hcf
              · exact hc)
          obtain ⟨y, hyf, hyx⟩ := List.mem_map.mp hmem
          obtain ⟨hyr, hyp⟩ := List.mem_filter.mp hyf
          have : y.passed = x.passed := hcons y hyr x hx (hinj y x hyx)
          simp at hyp
          rw [hyp] at this
          exact hxe this.symm
      have hv : (if (1 : Nat) = 1 then
          ((r.filter (fun y => y.passed = true)).map
            (fun y => toInt64 (H y.title))).contains (toInt64 (H x.title))
        else !(((r.filter (fun y => y.passed = true)).map
            (fun y => toInt64 (H y.title))).contains (toInt64 (H x.title)))) =
          x.passed := by
        rw [if_pos rfl, hcont]
        cases hxp : x.passed <;> simp [hxp]
      rw [hv]

theorem c3_witness :
    decodeIDResults
      (encodeFromResults Hx
        [{ title := "a", passed := true }, { title := "b", passed := false }])
      (([{ title := "a", passed := true },
          { title := "b", passed := false }] : List TestResult).map
        (fun x => toInt64 (Hx x.title))) =
      Except.ok [((1 : Int), true), (2, false)] ∧
    lookupKey [((1 : Int), true), (2, false)] 1 = some true ∧
    lookupKey [((1 : Int), true), (2, false)] 2 = some false := by
  obtain ⟨m, hm, hx⟩ := c3_roundtrip Hx
    (fun t => by by_cases h : t = "b" <;> simp [Hx, h])
    (fun t b hb => by
      by_cases h : t = "b" <;> simp [Hx, h] at hb <;> omega)
    [{ title := "a", passed := true }, { title := "b", passed := false }]
    (by decide)
  have hmeq : m = [((1 : Int), true), (2, false)] :=
    Except.ok.inj (hm.symm.trans rfl)
  subst hmeq
  refine ⟨hm, ?_, ?_⟩
  · exact hx { title := "a", passed := true } (by decide)
  · exact hx { title := "b", passed := false } (by decide)

/-- C8 (counterexample): the claim states that re-running
`markTestFlakesSince` over unchanged runs leaves `test_flakes` unchanged
because insertion is conflict-safe. The insert has no `ON CONFLICT`
clause and the table no unique constraint: on `stF` the first pass
records the flake once, the second pass appends the identical row again,
so the table differs after the second pass. -/
theorem c8_counterexample :
    markTestFlakesSince stF 10 =
      Except.ok ([flakeB], { stF with testFlakes := [flakeB] }) ∧
    markTestFlakesSince { stF with testFlakes := [flakeB] } 10 =
      Except.ok ([flakeB], { stF with testFlakes := [flakeB, flakeB] }) ∧
    ({ stF with testFlakes := [flakeB, flakeB] } : DBState).testFlakes ≠
      ({ stF with testFlakes := [flakeB] } : DBState).testFlakes := by
  refine ⟨rfl, rfl, by decide⟩

/-- C8 (amended): reprocessing the same window over an unchanged set of
test runs emits exactly the same batch of flakes again and appends it
(the insert has no conflict clause and the table no unique constraint),
so the table is not left row-for-row unchanged; however the *set* of
distinct flake rows is unchanged by the second pass. -/
theorem c8_set_idempotent (st : DBState) (cutoff : Int)
    (out out' : List FlakeRow) (st1 st2 : DBState)
    (h1 : markTestFlakesSince st cutoff = Except.ok (out, st1))
    (h2 : markTestFlakesSince st1 cutoff = Except.ok (out', st2)) :
    out' = out ∧ ∀ fl : FlakeRow, (fl ∈ st2.testFlakes ↔ fl ∈ st1.testFlakes) := by
  obtain ⟨hf1, hs1⟩ := markTestFlakesSince_ok_decomp st cutoff out st1 h1
  subst hs1
  obtain ⟨hf2, hs2⟩ := markTestFlakesSince_ok_decomp _ cutoff out' st2 h2
  have hf2' : (flakyPairs st cutoff).foldlM
      (fun acc pr => do
        let fs ← rowFlakes st pr
        pure (acc ++ fs)) [] = Except.ok out' := hf2
  have hout : out = out' := Except.ok.inj (hf1.symm.trans hf2')
  subst hout
  subst hs2
  refine ⟨rfl, ?_⟩
  intro fl
  simp only [List.mem_append]
  constructor
  · rintro (h | h)
    · exact h
    · exact Or.inr h
  · exact fun h => Or.inl h

theorem c8_witness :
    ([flakeB] : List FlakeRow) = [flakeB] ∧
    (flakeB ∈ ({ stF with testFlakes := [flakeB, flakeB] } : DBState).testFlakes ↔
      flakeB ∈ ({ stF with testFlakes := [flakeB] } : DBState).testFlakes) :=
  ⟨(c8_set_idempotent stF 10 [flakeB] [flakeB]
      { stF with testFlakes := [flakeB] }
      { stF with testFlakes := [flakeB, flakeB] } rfl rfl).1,
   (c8_set_idempotent stF 10 [flakeB] [flakeB]
      { stF with testFlakes := [flakeB] }
      { stF with testFlakes := [flakeB, flakeB] } rfl rfl).2 flakeB⟩

/-- The `LAG` fold only ever returns elements satisfying the window
condition. -/
theorem prevFold_cond (cond : TestRunRow → Prop) [DecidablePred cond] :
    ∀ (l : List TestRunRow) (best : Option TestRunRow) (p : TestRunRow),
      (∀ b, best = some b → cond b) →
      l.foldl (fun best q =>
        if cond q then
          match best with
          | none => some q
          | some b => if b.timestamp < q.timestamp then some q else some b
        else best) best = some p →
      cond p := by
  intro l
  induction l with
  | nil =>
    intro best p hbest h
    exact hbest p h
  | cons q t ih =>
    intro best p hbest h
    rw [List.foldl_cons] at h
    refine ih _ p ?_ h
    intro b hb
    by_cases hc : cond q
    · rw [if_pos hc] at hb
      revert hb hbest
      cases best with
      | none =>
        intro hbest hb
        cases hb
        exact hc
      | some b0 =>
        intro hbest hb
        have hb' : (if b0.timestamp < q.timestamp then some q else some b0) =
            some b := hb
        by_cases hts : b0.timestamp < q.timestamp
        · rw [if_pos hts] at hb'
          cases hb'
          exact hc
        · rw [if_neg hts] at hb'
          cases hb'
          exact hbest b rfl
    · rw [if_neg hc] at hb
      exact hbest b hb

theorem prevRun_cond (runs : List TestRunRow) (r p : TestRunRow)
    (h : prevRun runs r = some p) :
    p.blueprintId = r.blueprintId ∧ p.commitId = r.commitId ∧
      p.timestamp < r.timestamp := by
  unfold prevRun at h
  exact prevFold_cond
    (fun q => q.blueprintId = r.blueprintId ∧ q.commitId = r.commitId ∧
      q.timestamp < r.timestamp) runs none p (fun b hb => by cases hb) h

/-- Evaluation of one loop entry given the previous result of its id. -/
theorem entryFlake_eval (cur prev : TestRunRow) (pm : List (Int × Bool))
    (k : Int) (v pv : Bool) (hl : lookupKey pm k = some pv) :
    entryFlake cur prev pm (k, v) =
      if pv ≠ v then
        Except.ok [{ testRunSource := if !v then cur.source else prev.source,
                     testRunExtId := if !v then cur.extId else prev.extId,
                     testBlueprintId := k }]
      else Except.ok [] := by
  unfold entryFlake
  rw [hl]

/-- C7: flake attribution. In a database state whose runs on the
`(blueprint_id, commit_id)` partition of `B` are exactly `A` and `B` with
`A` earlier, where the test with id `idT` decodes as passed in `A` and
failed in `B`, `B.timestamp` is past the watermark, `(source, ext_id)` is
unique (primary key) and `B` occurs once, a successful
`markTestFlakesSince` emits exactly one flake row
`(B.source, B.extId, idT)` — attributed to the failing-side run `B`. -/
theorem c7_flake_attribution (st : DBState) (cutoff : Int)
    (A B : TestRunRow) (idT : Int) (members : List Int)
    (ma mb : List (Int × Bool)) (out : List FlakeRow) (st2 : DBState)
    (hA : A ∈ st.testRuns)
    (hkeyBp : A.blueprintId = B.blueprintId)
    (hkeyC : A.commitId = B.commitId)
    (hts : A.timestamp < B.timestamp)
    (hpart : ∀ r ∈ st.testRuns,
      r.blueprintId = B.blueprintId → r.commitId = B.commitId → r = A ∨ r = B)
    (hBpk : ∀ r ∈ st.testRuns, r.source = B.source → r.extId = B.extId → r = B)
    (hBonce : st.testRuns.count B = 1)
    (hcut : cutoff < B.timestamp)
    (hmem : lookupKey st.testRunBlueprints B.blueprintId = some members)
    (hdecA : decodeIDResults A.resultSpec members = Except.ok ma)
    (hTA : lookupKey ma idT = some true)
    (hdecB : decodeIDResults B.resultSpec members = Except.ok mb)
    (hTB : lookupKey mb idT = some false)
    (hok : markTestFlakesSince st cutoff = Except.ok (out, st2)) :
    out.count { testRunSource := B.source, testRunExtId := B.extId,
                testBlueprintId := idT } = 1 := by
  set τ : FlakeRow := { testRunSource := B.source, testRunExtId := B.extId,
                        testBlueprintId := idT } with hτ
  have hspec : B.resultSpec ≠ A.resultSpec := by
    intro he
    rw [he, hdecA] at hdecB
    cases hdecB
    exact absurd (hTA.symm.trans hTB) (by simp)
  obtain ⟨vA, hmaEq⟩ := decodeIDResults_ok_shape A.resultSpec members ma hdecA
  obtain ⟨vB, hmbEq⟩ := decodeIDResults_ok_shape B.resultSpec members mb hdecB
  have hTA' := hTA
  rw [hmaEq, lookupKey_buildResultMap] at hTA'
  have hmemT : idT ∈ members := by
    by_contra hni
    rw [if_neg hni] at hTA'
    cases hTA'
  rw [if_pos hmemT] at hTA'
  have hvA : vA idT = true := Option.some.inj hTA'
  have hTB' := hTB
  rw [hmbEq, lookupKey_buildResultMap, if_pos hmemT] at hTB'
  have hvB : vB idT = false := Option.some.inj hTB'
  have hprevB : prevRun st.testRuns B = some A := by
    refine prevRun_only st.testRuns B A ⟨hkeyBp, hkeyC, hts⟩ ?_ hA
    intro q hq hcond
    rcases hpart q hq hcond.1 hcond.2.1 with h | h
    · exact h
    · rw [h] at hcond
      exact absurd hcond.2.2 (lt_irrefl _)
  have hprevA : prevRun st.testRuns A = none := by
    refine prevRun_eq_none st.testRuns A ?_
    intro q hq hcond
    have hq1 : q.blueprintId = B.blueprintId := hcond.1.trans hkeyBp
    have hq2 : q.commitId = B.commitId := hcond.2.1.trans hkeyC
    rcases hpart q hq hq1 hq2 with h | h
    · rw [h] at hcond
      exact absurd hcond.2.2 (lt_irrefl _)
    · rw [h] at hcond
      exact absurd (hcond.2.2.trans hts) (lt_irrefl _)
  have hgB : (fun r => match prevRun st.testRuns r with
      | none => none
      | some p => if cutoff < r.timestamp ∧ r.resultSpec ≠ p.resultSpec
          then some (p, r) else none) B = some (A, B) := by
    show (match prevRun st.testRuns B with
      | none => none
      | some p => if cutoff < B.timestamp ∧ B.resultSpec ≠ p.resultSpec
          then some (p, B) else none) = some (A, B)
    rw [hprevB]
    show (if cutoff < B.timestamp ∧ B.resultSpec ≠ A.resultSpec
        then some (A, B) else none) = some (A, B)
    rw [if_pos ⟨hcut, hspec⟩]
  have hgsnd : ∀ b pr, (fun r => match prevRun st.testRuns r with
      | none => none
      | some p => if cutoff < r.timestamp ∧ r.resultSpec ≠ p.resultSpec
          then some (p, r) else none) b = some pr → pr.2 = b := by
    intro b pr h
    have hb : (match prevRun st.testRuns b with
      | none => none
      | some p => if cutoff < b.timestamp ∧ b.resultSpec ≠ p.resultSpec
          then some (p, b) else none) = some pr := h
    cases hp : prevRun st.testRuns b with
    | none =>
      rw [hp] at hb
      have hb' : (none : Option (TestRunRow × TestRunRow)) = some pr := hb
      cases hb'
    | some p =>
      rw [hp] at hb
      have hb' : (if cutoff < b.timestamp ∧ b.resultSpec ≠ p.resultSpec
          then some (p, b) else none) = some pr := hb
      by_cases hcnd : cutoff < b.timestamp ∧ b.resultSpec ≠ p.resultSpec
      · rw [if_pos hcnd] at hb'
        cases hb'
        rfl
      · rw [if_neg hcnd] at hb'
        cases hb'
  have hpairs : flakyPairs st cutoff = st.testRuns.filterMap
      (fun r => match prevRun st.testRuns r with
        | none => none
        | some p => if cutoff < r.timestamp ∧ r.resultSpec ≠ p.resultSpec
            then some (p, r) else none) := rfl
  have hpcount : @List.count (TestRunRow × TestRunRow) instBEqOfDecidableEq
      (A, B) (flakyPairs st cutoff) = 1 := by
    have hpc := count_filterMap_eq_count _ B (A, B) hgB
      (fun b pr h hP => by
        rw [hP] at h
        exact (hgsnd b (A, B) h).symm) st.testRuns
    exact hpc.trans hBonce
  obtain ⟨hfold, _⟩ := markTestFlakesSince_ok_decomp st cutoff out st2 hok
  obtain ⟨parts, hrel, hout⟩ :=
    foldAppendM_ok (rowFlakes st) (flakyPairs st cutoff) [] out hfold
  rw [hout]
  simp only [List.nil_append]
  have hcnt : ∀ pr ∈ flakyPairs st cutoff, ∀ fs,
      rowFlakes st pr = Except.ok fs →
      fs.count τ = if pr = (A, B) then 1 else 0 := by
    intro pr hpr fs hfs
    by_cases hprAB : pr = (A, B)
    · subst hprAB
      rw [if_pos rfl]
      have hfs1 : (match lookupKey st.testRunBlueprints B.blueprintId with
        | none => Except.error "TypeError: test_blueprint_ids is null"
        | some members' => flakesForRow members' B A) = Except.ok fs := hfs
      rw [hmem] at hfs1
      have hfs2 : flakesForRow members B A = Except.ok fs := hfs1
      unfold flakesForRow at hfs2
      rw [hdecB, exceptBind_ok, hdecA, exceptBind_ok] at hfs2
      obtain ⟨parts2, hrel2, hout2⟩ :=
        foldAppendM_ok (entryFlake B A ma) mb [] fs hfs2
      rw [hout2]
      simp only [List.nil_append]
      have hinner : ∀ e ∈ mb, ∀ fs2, entryFlake B A ma e = Except.ok fs2 →
          fs2.count τ = if e.1 = idT then 1 else 0 := by
        intro e he fs2 hfs2
        rw [hmbEq, buildResultMap_eq_map_dedup] at he
        obtain ⟨k, hk, rfl⟩ := List.mem_map.mp he
        show fs2.count τ = if k = idT then 1 else 0
        have hkmem : k ∈ members := (mem_dedupKeys members k).mp hk
        have hlook : lookupKey ma k = some (vA k) := by
          rw [hmaEq, lookupKey_buildResultMap, if_pos hkmem]
        rw [entryFlake_eval B A ma k (vB k) (vA k) hlook] at hfs2
        by_cases hkT : k = idT
        · subst hkT
          rw [if_pos (by rw [hvA, hvB]; decide)] at hfs2
          have hsrcB : (if !(vB k) then B.source else A.source) = B.source := by
            rw [hvB]
            rfl
          have hextB : (if !(vB k) then B.extId else A.extId) = B.extId := by
            rw [hvB]
            rfl
          rw [hsrcB, hextB] at hfs2
          cases hfs2
          rw [if_pos rfl, hτ, List.count_cons_self, List.count_nil]
        · have h0 : fs2.count τ = 0 := by
            rw [List.count_eq_zero]
            by_cases hne : vA k ≠ vB k
            · rw [if_pos hne] at hfs2
              cases hfs2
              intro hτmem
              have h := List.mem_singleton.mp hτmem
              have hk2 : τ.testBlueprintId = k := by rw [h]
              rw [hτ] at hk2
              exact hkT hk2.symm
            · rw [if_neg hne] at hfs2
              cases hfs2
              exact List.not_mem_nil τ
          rw [h0, if_neg hkT]
      rw [count_flatten_forall2 (entryFlake B A ma) τ
        (fun e => if e.1 = idT then 1 else 0) mb parts2 hrel2 hinner]
      rw [hmbEq, buildResultMap_eq_map_dedup, List.map_map]
      have hcomp : ((fun e : Int × Bool => if e.1 = idT then (1 : Nat) else 0) ∘
          (fun k => (k, vB k))) = (fun k => if k = idT then 1 else 0) := rfl
      rw [hcomp, sum_indicator_eq_count]
      exact List.count_eq_one_of_mem (nodup_dedupKeys members)
        ((mem_dedupKeys members idT).mpr hmemT)
    · rw [if_neg hprAB]
      rw [hpairs] at hpr
      obtain ⟨r, hr, hgr⟩ := List.mem_filterMap.mp hpr
      have hpr2 : pr.2 = r := hgsnd r pr hgr
      have hrB : r ≠ B := by
        intro he
        rw [he] at hgr
        have hgB2 : (match prevRun st.testRuns B with
          | none => none
          | some p => if cutoff < B.timestamp ∧ B.resultSpec ≠ p.resultSpec
              then some (p, B) else none) = some (A, B) := hgB
        have hpr12 : some (A, B) = some pr := hgB2.symm.trans hgr
        cases hpr12
        exact hprAB rfl
      have hprev : prevRun st.testRuns r = some pr.1 := by
        cases hp : prevRun st.testRuns r with
        | none =>
          rw [hp] at hgr
          have hgr' : (none : Option (TestRunRow × TestRunRow)) = some pr := hgr
          cases hgr'
        | some p =>
          rw [hp] at hgr
          have hgr' : (if cutoff < r.timestamp ∧ r.resultSpec ≠ p.resultSpec
              then some (p, r) else none) = some pr := hgr
          by_cases hcnd : cutoff < r.timestamp ∧ r.resultSpec ≠ p.resultSpec
          · rw [if_pos hcnd] at hgr'
            cases hgr'
            rfl
          · rw [if_neg hcnd] at hgr'
            cases hgr'
      have hp1mem : pr.1 ∈ st.testRuns := prevRun_mem st.testRuns r pr.1 hprev
      have hp1B : pr.1 ≠ B := by
        intro he
        have hcondB := prevRun_cond st.testRuns r pr.1 hprev
        rw [he] at hcondB
        rcases hpart r hr hcondB.1.symm hcondB.2.1.symm with hrA | hrB'
        · rw [hrA, hprevA] at hprev
          cases hprev
        · exact hrB hrB'
      have hfs1 : (match lookupKey st.testRunBlueprints pr.2.blueprintId with
        | none => Except.error "TypeError: test_blueprint_ids is null"
        | some members' => flakesForRow members' pr.2 pr.1) = Except.ok fs := hfs
      cases hl : lookupKey st.testRunBlueprints pr.2.blueprintId with
      | none =>
        rw [hl] at hfs1
        have hfs2 : (Except.error "TypeError: test_blueprint_ids is null" :
            Except String (List FlakeRow)) = Except.ok fs := hfs1
        cases hfs2
      | some mem' =>
        rw [hl] at hfs1
        have hfs2 : flakesForRow mem' pr.2 pr.1 = Except.ok fs := hfs1
        have hsrc := flakesForRow_sources mem' pr.2 pr.1 fs hfs2
        rw [List.count_eq_zero]
        intro hτfs
        have hmem2 : pr.2 ∈ st.testRuns := by
          rw [hpr2]
          exact hr
        rcases hsrc τ hτfs with ⟨hs, he⟩ | ⟨hs, he⟩
        · have hsB : B.source = pr.2.source := hs
          have heB : B.extId = pr.2.extId := he
          have h2B : pr.2 = B := hBpk pr.2 hmem2 hsB.symm heB.symm
          exact hrB (hpr2.symm.trans h2B)
        · have hsB : B.source = pr.1.source := hs
          have heB : B.extId = pr.1.extId := he
          have h1B : pr.1 = B := hBpk pr.1 hp1mem hsB.symm heB.symm
          exact hp1B h1B
  rw [count_flatten_forall2 (rowFlakes st) τ
    (fun pr => if pr = (A, B) then 1 else 0) (flakyPairs st cutoff) parts hrel hcnt]
  rw [sum_indicator_eq_count]
  exact hpcount

theorem c7_witness :
    ([flakeB] : List FlakeRow).count
      { testRunSource := runB.source, testRunExtId := runB.extId,
        testBlueprintId := 5 } = 1 :=
  c7_flake_attribution stF 10 runA runB 5 [5] [(5, true)] [(5, false)]
    [flakeB] { stF with testFlakes := [flakeB] }
    (by decide) rfl rfl (by decide) (by decide) (by decide) (by decide)
    (by decide) rfl rfl rfl rfl rfl rfl
